import Mathlib

/-!
# Verification of the workman repository/worktree lifecycle engine

This file shallowly embeds the core of the `workman` tool (a Go TUI that
manages git repositories and their worktrees) and proves or refutes the
frozen specification claims about it.

Embedded components, each translated from the corresponding Go source:
* the three naming sanitizers (`internal/git/repository.go` `sanitizeName`,
  `internal/ui/model.go` `sanitizeRepoName`, `internal/config` `sanitizeStorageName`);
* the worktree-notes operations on the configuration
  (`Config.GetWorktreeNotes` / `SetWorktreeNotes` / `DeleteWorktreeNotes`);
* the git command adapter's `AddWorktree` branch/base-reference resolution;
* the lifecycle workflows of `internal/ui/model.go` (`saveRepository`,
  `saveWorktree`, `deleteWorktree`, `deleteRepository`, `loadWorktrees`) and
  the modal `Update` key dispatcher, as a step function over an explicit
  model state.

External effects (git invocations, filesystem probes, config persistence)
are modelled by an `Env` record supplying each call's result; workflows
additionally log the external calls they make as an `Effect` trace.
-/

namespace Workman

/-! ## Character-level helpers for the naming sanitizers

Go compares runes against ASCII ranges; we mirror this via `Char.toNat`.
`strings.ToLower` is modelled for the ASCII range (the only range that can
survive the sanitizers' character filters). -/

/-- The rune test `(ch >= 'a' && ch <= 'z') || (ch >= 'A' && ch <= 'Z') || (ch >= '0' && ch <= '9')`. -/
def isAsciiAlnum (c : Char) : Bool :=
  (97 ≤ c.toNat && c.toNat ≤ 122) || (65 ≤ c.toNat && c.toNat ≤ 90) ||
    (48 ≤ c.toNat && c.toNat ≤ 57)

/-- Character class `[a-zA-Z0-9-]` of `sanitizeName` and `sanitizeRepoName`. -/
def nameOK (c : Char) : Bool := isAsciiAlnum c || c == '-'

/-- Character class `[a-zA-Z0-9-_]` of `sanitizeStorageName`'s cleaner regexp. -/
def storageOK (c : Char) : Bool := isAsciiAlnum c || c == '-' || c == '_'

/-- ASCII-range model of Go `strings.ToLower`, applied rune-wise. -/
def goLower (c : Char) : Char :=
  if 65 ≤ c.toNat ∧ c.toNat ≤ 90 then
    Char.ofNat (c.toNat + 32)
  else c

/-- Go `unicode.IsSpace` restricted to the ASCII white space characters
(the only ones `strings.TrimSpace` can strip from the inputs we consider). -/
def isGoSpace (c : Char) : Bool :=
  c == ' ' || c == '\t' || c == '\n' || c == '\x0b' || c == '\x0c' || c == '\r'

/-- Replace every maximal run of characters failing `ok` by a single dash:
the effect of `regexp.MustCompile(⬝[^class]+⬝).ReplaceAllString(name, "-")`.
The boolean records whether the previous character belonged to such a run. -/
def repRunsAux (ok : Char → Bool) : Bool → List Char → List Char
  | _, [] => []
  | inRun, c :: rest =>
    if ok c then c :: repRunsAux ok false rest
    else if inRun then repRunsAux ok true rest
    else '-' :: repRunsAux ok true rest

/-- Entry point of `repRunsAux`: no run is in progress at the start. -/
def repRuns (ok : Char → Bool) (l : List Char) : List Char := repRunsAux ok false l

/-- Per-character replacement used by `sanitizeRepoName`'s explicit loop:
each character outside the class becomes its own dash. -/
def repEach (ok : Char → Bool) (l : List Char) : List Char :=
  l.map (fun c => if ok c then c else '-')

/-- Two-sided trim of characters satisfying `p`:
the shape shared by Go `strings.Trim` and `strings.TrimSpace`. -/
def goTrim (p : Char → Bool) (l : List Char) : List Char :=
  ((l.dropWhile p).reverse.dropWhile p).reverse

/-- Go `strings.Trim(s, "-")`. -/
def trimDashes (l : List Char) : List Char := goTrim (fun c => c == '-') l

/-- Go `strings.TrimSpace`. -/
def trimSpaceL (l : List Char) : List Char := goTrim isGoSpace l

/-- `strings.TrimSpace` on strings. -/
def trimSpaceS (s : String) : String := String.mk (trimSpaceL s.data)

/-- Collapse every maximal run of dashes to a single dash: the effect of
`regexp.MustCompile(⬝-+⬝).ReplaceAllString(s, "-")`. The boolean records
whether the previous kept character was a dash. -/
def collapseDashAux : Bool → List Char → List Char
  | _, [] => []
  | prevDash, c :: rest =>
    if c == '-' then
      if prevDash then collapseDashAux true rest
      else '-' :: collapseDashAux true rest
    else c :: collapseDashAux false rest

/-- Entry point of `collapseDashAux`. -/
def collapseDashes (l : List Char) : List Char := collapseDashAux false l

/-- One pass of Go `strings.ReplaceAll(s, "--", "-")`: left-to-right,
non-overlapping replacement of each `--` by `-`. -/
def replaceDD : List Char → List Char
  | [] => []
  | [c] => [c]
  | c :: d :: rest =>
    if c == '-' && d == '-' then '-' :: replaceDD rest
    else c :: replaceDD (d :: rest)

/-- Go `strings.Contains(s, "--")`. -/
def hasDD : List Char → Bool
  | [] => false
  | [_] => false
  | c :: d :: rest => (c == '-' && d == '-') || hasDD (d :: rest)

/-- The `for strings.Contains(result, "--") { result = strings.ReplaceAll(result, "--", "-") }`
loop, with enough fuel; each productive pass strictly shrinks the list, so
fuel `l.length` always reaches the loop's exit condition. -/
def collapseLoop : Nat → List Char → List Char
  | 0, l => l
  | n + 1, l => if hasDD l then collapseLoop n (replaceDD l) else l

/-! ## The three sanitizers -/

/-- `sanitizeName` from `internal/git/repository.go`: regexp run replacement
over `[^a-zA-Z0-9-]+`, trim dashes, regexp collapse of `-+`, lower-case. -/
def sanitizeName (s : String) : String :=
  let t := repRuns nameOK s.data
  let t := trimDashes t
  let t := collapseDashes t
  String.mk (t.map goLower)

/-- `sanitizeRepoName` from `internal/ui/model.go`: per-character replacement,
trim dashes, `ReplaceAll("--","-")` loop, lower-case. -/
def sanitizeRepoName (s : String) : String :=
  let t := repEach nameOK s.data
  let t := trimDashes t
  let t := collapseLoop t.length t
  String.mk (t.map goLower)

/-- `sanitizeStorageName` from the config storage helpers: trim space,
regexp run replacement over `[^a-zA-Z0-9-_]+`, trim dashes,
`ReplaceAll("--","-")` loop, `"unnamed"` fallback for the empty result,
lower-case. -/
def sanitizeStorageName (s : String) : String :=
  let t := trimSpaceL s.data
  let t := repRunsAux storageOK false t
  let t := trimDashes t
  let t := collapseLoop t.length t
  if t = [] then "unnamed" else String.mk (t.map goLower)

/-! ## Sanitizer output predicates (the vocabulary of the claims) -/

/-- Membership in `[a-z0-9-]`, the character set the spec asserts for
sanitizer output. -/
def lowerOK (c : Char) : Bool :=
  (97 ≤ c.toNat && c.toNat ≤ 122) || (48 ≤ c.toNat && c.toNat ≤ 57) || c == '-'

/-- Membership in `[a-z0-9-_]`, the character set `sanitizeStorageName`
actually produces. -/
def lowerStorageOK (c : Char) : Bool := lowerOK c || c == '_'

/-- Has no leading dash, no trailing dash. -/
def noEdgeDash (l : List Char) : Prop :=
  l.head? ≠ some '-' ∧ l.getLast? ≠ some '-'

instance (l : List Char) : Decidable (noEdgeDash l) := by
  unfold noEdgeDash; infer_instance

/-- The dash-related shape the spec asserts: characters in `p`, no leading or
trailing dash, no two consecutive dashes. -/
def dashShape (p : Char → Bool) (s : String) : Prop :=
  s.data.all p = true ∧ noEdgeDash s.data ∧ hasDD s.data = false

instance (p : Char → Bool) (s : String) : Decidable (dashShape p s) := by
  unfold dashShape; infer_instance

/-! ## Character-level facts -/

theorem char_toNat_inj {c d : Char} (h : c.toNat = d.toNat) : c = d := by
  apply Char.ext
  apply UInt32.eq_of_toBitVec_eq
  apply BitVec.eq_of_toNat_eq
  exact h

theorem char_eq_iff_toNat {c d : Char} : c = d ↔ c.toNat = d.toNat :=
  ⟨fun h => h ▸ rfl, char_toNat_inj⟩

theorem goLower_toNat_of_upper {c : Char} (h1 : 65 ≤ c.toNat) (h2 : c.toNat ≤ 90) :
    (goLower c).toNat = c.toNat + 32 := by
  unfold goLower
  rw [if_pos ⟨h1, h2⟩]
  interval_cases h : c.toNat <;> simp_all

theorem goLower_of_not_upper {c : Char} (h : ¬(65 ≤ c.toNat ∧ c.toNat ≤ 90)) :
    goLower c = c := by
  unfold goLower
  rw [if_neg h]

theorem dash_toNat : ('-' : Char).toNat = 45 := by decide

theorem beq_dash {c : Char} : (c == '-') = true ↔ c.toNat = 45 := by
  rw [beq_iff_eq, char_eq_iff_toNat, dash_toNat]

theorem nameOK_iff {c : Char} : nameOK c = true ↔
    (97 ≤ c.toNat ∧ c.toNat ≤ 122) ∨ (65 ≤ c.toNat ∧ c.toNat ≤ 90) ∨
    (48 ≤ c.toNat ∧ c.toNat ≤ 57) ∨ c.toNat = 45 := by
  simp only [nameOK, isAsciiAlnum, Bool.or_eq_true, Bool.and_eq_true, decide_eq_true_eq, beq_dash]
  omega

theorem storageOK_iff {c : Char} : storageOK c = true ↔
    (97 ≤ c.toNat ∧ c.toNat ≤ 122) ∨ (65 ≤ c.toNat ∧ c.toNat ≤ 90) ∨
    (48 ≤ c.toNat ∧ c.toNat ≤ 57) ∨ c.toNat = 45 ∨ c.toNat = 95 := by
  have h95 : (c == '_') = true ↔ c.toNat = 95 := by
    rw [beq_iff_eq, char_eq_iff_toNat]; exact Iff.rfl
  simp only [storageOK, isAsciiAlnum, Bool.or_eq_true, Bool.and_eq_true, decide_eq_true_eq, beq_dash, h95]
  omega

theorem lowerOK_iff {c : Char} : lowerOK c = true ↔
    (97 ≤ c.toNat ∧ c.toNat ≤ 122) ∨ (48 ≤ c.toNat ∧ c.toNat ≤ 57) ∨ c.toNat = 45 := by
  simp only [lowerOK, Bool.or_eq_true, Bool.and_eq_true, decide_eq_true_eq, beq_dash]
  omega

theorem lowerStorageOK_iff {c : Char} : lowerStorageOK c = true ↔
    (97 ≤ c.toNat ∧ c.toNat ≤ 122) ∨ (48 ≤ c.toNat ∧ c.toNat ≤ 57) ∨
    c.toNat = 45 ∨ c.toNat = 95 := by
  have h95 : (c == '_') = true ↔ c.toNat = 95 := by
    rw [beq_iff_eq, char_eq_iff_toNat]; exact Iff.rfl
  simp only [lowerStorageOK, lowerOK, Bool.or_eq_true, Bool.and_eq_true, decide_eq_true_eq, beq_dash, h95]
  omega

theorem lowerOK_goLower_of_nameOK {c : Char} (h : nameOK c = true) :
    lowerOK (goLower c) = true := by
  rw [nameOK_iff] at h
  rw [lowerOK_iff]
  by_cases hu : 65 ≤ c.toNat ∧ c.toNat ≤ 90
  · have := goLower_toNat_of_upper hu.1 hu.2
    omega
  · rw [goLower_of_not_upper hu]
    omega

theorem lowerStorageOK_goLower_of_storageOK {c : Char} (h : storageOK c = true) :
    lowerStorageOK (goLower c) = true := by
  rw [storageOK_iff] at h
  rw [lowerStorageOK_iff]
  by_cases hu : 65 ≤ c.toNat ∧ c.toNat ≤ 90
  · have := goLower_toNat_of_upper hu.1 hu.2
    omega
  · rw [goLower_of_not_upper hu]
    omega

theorem goLower_dash_iff {c : Char} : goLower c = '-' ↔ c = '-' := by
  rw [char_eq_iff_toNat, char_eq_iff_toNat, dash_toNat]
  by_cases hu : 65 ≤ c.toNat ∧ c.toNat ≤ 90
  · have := goLower_toNat_of_upper hu.1 hu.2
    omega
  · rw [goLower_of_not_upper hu]

theorem goLower_of_lowerOK {c : Char} (h : lowerOK c = true) : goLower c = c := by
  rw [lowerOK_iff] at h
  apply goLower_of_not_upper
  omega

theorem goLower_of_lowerStorageOK {c : Char} (h : lowerStorageOK c = true) :
    goLower c = c := by
  rw [lowerStorageOK_iff] at h
  apply goLower_of_not_upper
  omega

theorem nameOK_of_lowerOK {c : Char} (h : lowerOK c = true) : nameOK c = true := by
  rw [lowerOK_iff] at h; rw [nameOK_iff]; omega

theorem storageOK_of_lowerStorageOK {c : Char} (h : lowerStorageOK c = true) :
    storageOK c = true := by
  rw [lowerStorageOK_iff] at h; rw [storageOK_iff]; omega

end Workman
namespace Workman

/-! ## Structural facts about the sanitizer pipeline stages -/

theorem map_id_of_mem {f : Char → Char} {l : List Char} (h : ∀ c ∈ l, f c = c) :
    l.map f = l := by
  induction l with
  | nil => rfl
  | cons c rest ih =>
    simp only [List.map_cons, h c (List.mem_cons_self c rest),
      ih (fun d hd => h d (List.mem_cons_of_mem c hd))]

theorem string_mk_data (s : String) : String.mk s.data = s := rfl

-- goTrim

theorem mem_goTrim {p : Char → Bool} {l : List Char} {c : Char}
    (h : c ∈ goTrim p l) : c ∈ l := by
  unfold goTrim at h
  rw [List.mem_reverse] at h
  have h2 := (List.dropWhile_sublist p (l := (l.dropWhile p).reverse)).subset h
  rw [List.mem_reverse] at h2
  exact (List.dropWhile_sublist p (l := l)).subset h2

theorem head?_dropWhile_false {p : Char → Bool} {l : List Char} {c : Char}
    (h : (l.dropWhile p).head? = some c) : p c = false := by
  have := List.head?_dropWhile_not p l
  rw [h] at this
  exact this

theorem getLast?_dropWhile_ne_nil {p : Char → Bool} {l : List Char}
    (h : l.dropWhile p ≠ []) : (l.dropWhile p).getLast? = l.getLast? := by
  induction l with
  | nil => simp [List.dropWhile] at h
  | cons c rest ih =>
    rw [List.dropWhile_cons]
    by_cases hp : p c = true
    · rw [List.dropWhile_cons, if_pos hp] at h
      rw [if_pos hp, ih h]
      cases rest with
      | nil => simp [List.dropWhile] at h
      | cons d rest2 => rw [List.getLast?_cons_cons]
    · rw [if_neg hp]

theorem getLast?_goTrim {p : Char → Bool} {l : List Char} {c : Char}
    (h : (goTrim p l).getLast? = some c) : p c = false := by
  unfold goTrim at h
  rw [List.getLast?_reverse] at h
  exact head?_dropWhile_false h

theorem head?_goTrim {p : Char → Bool} {l : List Char} {c : Char}
    (h : (goTrim p l).head? = some c) : p c = false := by
  unfold goTrim at h
  rw [List.head?_reverse] at h
  have hne : (l.dropWhile p).reverse.dropWhile p ≠ [] := by
    intro hnil
    rw [hnil] at h
    simp at h
  rw [getLast?_dropWhile_ne_nil hne, List.getLast?_reverse] at h
  exact head?_dropWhile_false h

theorem dropWhile_eq_self_of_head {p : Char → Bool} {l : List Char}
    (h : ∀ c, l.head? = some c → p c = false) : l.dropWhile p = l := by
  cases l with
  | nil => rfl
  | cons c rest =>
    rw [List.dropWhile_cons, if_neg]
    rw [h c rfl]
    simp

theorem goTrim_eq_self {p : Char → Bool} {l : List Char}
    (h1 : ∀ c, l.head? = some c → p c = false)
    (h2 : ∀ c, l.getLast? = some c → p c = false) : goTrim p l = l := by
  unfold goTrim
  rw [dropWhile_eq_self_of_head h1]
  rw [dropWhile_eq_self_of_head (by intro c hc; rw [List.head?_reverse] at hc; exact h2 c hc)]
  exact List.reverse_reverse l


-- repRunsAux / repEach membership and identity

theorem mem_repRunsAux {ok : Char → Bool} {l : List Char} :
    ∀ {b : Bool} {c : Char}, c ∈ repRunsAux ok b l → ok c = true ∨ c = '-' := by
  induction l with
  | nil => intro b c h; simp [repRunsAux] at h
  | cons d rest ih =>
    intro b c h
    unfold repRunsAux at h
    by_cases hd : ok d = true
    · rw [if_pos hd] at h
      rcases List.mem_cons.mp h with h | h
      · exact Or.inl (h ▸ hd)
      · exact ih h
    · rw [if_neg hd] at h
      cases b with
      | true => exact ih (by simpa using h)
      | false =>
        rcases List.mem_cons.mp (by simpa using h) with h | h
        · exact Or.inr h
        · exact ih h

theorem repRunsAux_id {ok : Char → Bool} {l : List Char}
    (h : ∀ c ∈ l, ok c = true) : ∀ b, repRunsAux ok b l = l := by
  induction l with
  | nil => intro b; rfl
  | cons d rest ih =>
    intro b
    unfold repRunsAux
    rw [if_pos (h d (List.mem_cons_self d rest))]
    rw [ih (fun c hc => h c (List.mem_cons_of_mem d hc)) false]

theorem mem_repEach {ok : Char → Bool} {l : List Char} {c : Char}
    (h : c ∈ repEach ok l) : ok c = true ∨ c = '-' := by
  unfold repEach at h
  rcases List.mem_map.mp h with ⟨d, _, hd⟩
  by_cases hok : ok d = true
  · rw [if_pos hok] at hd; exact Or.inl (hd ▸ hok)
  · rw [if_neg hok] at hd; exact Or.inr hd.symm

theorem repEach_id {ok : Char → Bool} {l : List Char}
    (h : ∀ c ∈ l, ok c = true) : repEach ok l = l := by
  unfold repEach
  apply map_id_of_mem
  intro c hc
  rw [if_pos (h c hc)]

-- hasDD helpers

-- definitional equations, usable by rw

theorem hasDD_cons_cons {rest : List Char} {c d : Char} :
    hasDD (c :: d :: rest) = ((c == '-' && d == '-') || hasDD (d :: rest)) := rfl

theorem replaceDD_cons_cons {rest : List Char} {c d : Char} :
    replaceDD (c :: d :: rest) =
      (if c == '-' && d == '-' then '-' :: replaceDD rest
       else c :: replaceDD (d :: rest)) := rfl


theorem hasDD_cons_of_head_ne {l : List Char} {c : Char}
    (h : l.head? ≠ some '-') : hasDD (c :: l) = hasDD l := by
  cases l with
  | nil => rfl
  | cons d rest =>
    have hd : (d == '-') = false := by
      simp only [List.head?_cons, ne_eq] at h
      simp only [beq_eq_false_iff_ne, ne_eq]
      intro he; exact h (by rw [he])
    rw [hasDD_cons_cons, hd, Bool.and_false, Bool.false_or]

theorem hasDD_cons_ne_dash {l : List Char} {c : Char}
    (h : c ≠ '-') : hasDD (c :: l) = hasDD l := by
  cases l with
  | nil => rfl
  | cons d rest =>
    have hc : (c == '-') = false := by simpa using h
    rw [hasDD_cons_cons, hc, Bool.false_and, Bool.false_or]

theorem hasDD_of_tail {l : List Char} {c : Char}
    (h : hasDD (c :: l) = false) : hasDD l = false := by
  cases l with
  | nil => rfl
  | cons d rest =>
    rw [hasDD_cons_cons] at h
    exact (Bool.or_eq_false_iff.mp h).2

theorem head_ne_of_hasDD_dash {l : List Char}
    (h : hasDD ('-' :: l) = false) : l.head? ≠ some '-' := by
  cases l with
  | nil => simp
  | cons d rest =>
    rw [hasDD_cons_cons] at h
    have := (Bool.or_eq_false_iff.mp h).1
    simp only [List.head?_cons, ne_eq, Option.some.injEq]
    intro he
    rw [he] at this
    simp at this


-- collapseDashAux

theorem collapseDashAux_nil {b : Bool} : collapseDashAux b [] = [] := rfl

theorem collapseDashAux_cons {b : Bool} {c : Char} {rest : List Char} :
    collapseDashAux b (c :: rest) =
      (if c == '-' then
        (if b then collapseDashAux true rest else '-' :: collapseDashAux true rest)
       else c :: collapseDashAux false rest) := rfl

theorem mem_collapseDashAux {l : List Char} :
    ∀ {b : Bool} {c : Char}, c ∈ collapseDashAux b l → c ∈ l := by
  induction l with
  | nil => intro b c h; simp [collapseDashAux_nil] at h
  | cons d rest ih =>
    intro b c h
    rw [collapseDashAux_cons] at h
    by_cases hd : (d == '-') = true
    · rw [if_pos hd] at h
      have hd' : d = '-' := by simpa using hd
      cases b with
      | true => exact List.mem_cons_of_mem d (ih (by simpa using h))
      | false =>
        rcases List.mem_cons.mp (by simpa using h) with h | h
        · exact h ▸ (hd' ▸ List.mem_cons_self d rest)
        · exact List.mem_cons_of_mem d (ih h)
    · rw [if_neg hd] at h
      rcases List.mem_cons.mp h with h | h
      · exact h ▸ List.mem_cons_self d rest
      · exact List.mem_cons_of_mem d (ih h)

theorem collapseDashAux_core (l : List Char) :
    (collapseDashAux true l).head? ≠ some '-' ∧
      ∀ b, hasDD (collapseDashAux b l) = false := by
  induction l with
  | nil => exact ⟨by simp [collapseDashAux_nil], fun b => rfl⟩
  | cons d rest ih =>
    constructor
    · rw [collapseDashAux_cons]
      by_cases hd : (d == '-') = true
      · rw [if_pos hd, if_pos rfl]
        exact ih.1
      · rw [if_neg hd]
        simp only [List.head?_cons, ne_eq, Option.some.injEq]
        intro he
        exact hd (by rw [he]; rfl)
    · intro b
      rw [collapseDashAux_cons]
      by_cases hd : (d == '-') = true
      · rw [if_pos hd]
        cases b with
        | true => simpa using ih.2 true
        | false =>
          simp only [if_neg (Bool.false_ne_true)]
          rw [hasDD_cons_of_head_ne ih.1]
          exact ih.2 true
      · rw [if_neg hd]
        rw [hasDD_cons_ne_dash (by simpa using hd)]
        exact ih.2 false

theorem collapseDashAux_ne_nil {l : List Char} {c : Char}
    (hc : c ∈ l) (hne : c ≠ '-') : ∀ b, collapseDashAux b l ≠ [] := by
  induction l with
  | nil => simp at hc
  | cons d rest ih =>
    intro b
    rw [collapseDashAux_cons]
    by_cases hd : (d == '-') = true
    · have hd' : d = '-' := by simpa using hd
      have hcr : c ∈ rest := by
        rcases List.mem_cons.mp hc with h | h
        · exact absurd (h.trans hd') hne
        · exact h
      rw [if_pos hd]
      cases b with
      | true => exact ih hcr true
      | false => simp
    · rw [if_neg hd]
      simp

theorem getLast?_cons_ne_nil {l : List Char} {c : Char} (h : l ≠ []) :
    (c :: l).getLast? = l.getLast? := by
  cases l with
  | nil => exact absurd rfl h
  | cons d rest => exact List.getLast?_cons_cons

theorem getLast?_collapseDashAux {l : List Char}
    (h : l.getLast? ≠ some '-') :
    ∀ b, (collapseDashAux b l).getLast? ≠ some '-' := by
  induction l with
  | nil => intro b; simp [collapseDashAux_nil]
  | cons d rest ih =>
    intro b
    cases rest with
    | nil =>
      have hd : d ≠ '-' := by
        simp only [List.getLast?_singleton, ne_eq, Option.some.injEq] at h
        exact h
      rw [collapseDashAux_cons, if_neg (by simpa using hd), collapseDashAux_nil]
      simpa using hd
    | cons e rest2 =>
      have hrest : (e :: rest2).getLast? ≠ some '-' := by
        rw [List.getLast?_cons_cons] at h
        exact h
      have hx : ∃ x ∈ e :: rest2, x ≠ '-' := by
        rcases List.getLast?_eq_getLast (e :: rest2) (by simp) with hg
        refine ⟨(e :: rest2).getLast (by simp), List.getLast_mem _, ?_⟩
        intro heq
        rw [hg, heq] at hrest
        exact hrest rfl
      rcases hx with ⟨x, hxmem, hxne⟩
      have hne2 : ∀ b2, collapseDashAux b2 (e :: rest2) ≠ [] :=
        collapseDashAux_ne_nil hxmem hxne
      rw [collapseDashAux_cons]
      by_cases hd : (d == '-') = true
      · rw [if_pos hd]
        cases b with
        | true => exact ih hrest true
        | false =>
          simp only [if_neg (Bool.false_ne_true)]
          rw [getLast?_cons_ne_nil (hne2 true)]
          exact ih hrest true
      · rw [if_neg hd]
        rw [getLast?_cons_ne_nil (hne2 false)]
        exact ih hrest false

theorem head?_collapseDashAux_false {l : List Char}
    (h : l.head? ≠ some '-') : (collapseDashAux false l).head? = l.head? := by
  cases l with
  | nil => rfl
  | cons d rest =>
    have hd : (d == '-') = false := by
      simp only [List.head?_cons, ne_eq, Option.some.injEq] at h
      simpa using h
    rw [collapseDashAux_cons, if_neg (by simp [hd])]
    rfl

theorem collapseDashAux_id {l : List Char} :
    ∀ b, hasDD l = false → (b = true → l.head? ≠ some '-') →
      collapseDashAux b l = l := by
  induction l with
  | nil => intro b _ _; rfl
  | cons d rest ih =>
    intro b hdd hb
    rw [collapseDashAux_cons]
    by_cases hd : (d == '-') = true
    · have hd' : d = '-' := by simpa using hd
      cases b with
      | true =>
        exact absurd (by rw [hd']; rfl) (hb rfl)
      | false =>
        simp only [if_pos hd, if_neg (Bool.false_ne_true)]
        rw [ih true (hasDD_of_tail hdd) (fun _ => head_ne_of_hasDD_dash (hd' ▸ hdd)), hd']
    · rw [if_neg hd]
      rw [ih false (hasDD_of_tail hdd) (fun h => by simp at h)]


-- replaceDD / collapseLoop

theorem replaceDD_nil : replaceDD [] = [] := rfl

theorem replaceDD_singleton {c : Char} : replaceDD [c] = [c] := rfl

theorem mem_replaceDD : ∀ {l : List Char} {c : Char}, c ∈ replaceDD l → c ∈ l := by
  intro l
  induction l using replaceDD.induct with
  | case1 => intro c h; simp [replaceDD_nil] at h
  | case2 d => intro c h; rw [replaceDD_singleton] at h; exact h
  | case3 c d rest hdd ih =>
    intro x h
    rw [replaceDD_cons_cons, if_pos hdd] at h
    rcases List.mem_cons.mp h with h | h
    · have : c = '-' := by simpa using (Bool.and_eq_true_iff.mp hdd).1
      exact h ▸ (this ▸ List.mem_cons_self c (d :: rest))
    · exact List.mem_cons_of_mem c (List.mem_cons_of_mem d (ih h))
  | case4 c d rest hdd ih =>
    intro x h
    rw [replaceDD_cons_cons, if_neg (by simp [hdd])] at h
    rcases List.mem_cons.mp h with h | h
    · exact h ▸ List.mem_cons_self c (d :: rest)
    · exact List.mem_cons_of_mem c (ih h)

theorem length_replaceDD_le : ∀ l : List Char, (replaceDD l).length ≤ l.length := by
  intro l
  induction l using replaceDD.induct with
  | case1 => simp [replaceDD_nil]
  | case2 d => simp [replaceDD_singleton]
  | case3 c d rest hdd ih =>
    rw [replaceDD_cons_cons, if_pos hdd]
    simp only [List.length_cons]
    omega
  | case4 c d rest hdd ih =>
    rw [replaceDD_cons_cons, if_neg (by simp [hdd])]
    simp only [List.length_cons]
    simp only [List.length_cons] at ih
    omega

theorem length_replaceDD_lt : ∀ {l : List Char}, hasDD l = true →
    (replaceDD l).length < l.length := by
  intro l
  induction l using replaceDD.induct with
  | case1 => intro h; simp [hasDD] at h
  | case2 d => intro h; simp [hasDD] at h
  | case3 c d rest hdd ih =>
    intro _
    rw [replaceDD_cons_cons, if_pos hdd]
    have := length_replaceDD_le rest
    simp only [List.length_cons]
    omega
  | case4 c d rest hdd ih =>
    intro h
    rw [hasDD_cons_cons, Bool.of_not_eq_true hdd, Bool.false_or] at h
    rw [replaceDD_cons_cons, if_neg (by simp [hdd])]
    have := ih h
    simp only [List.length_cons] at this ⊢
    omega

theorem replaceDD_ne_nil {l : List Char} (h : l ≠ []) : replaceDD l ≠ [] := by
  cases l with
  | nil => exact absurd rfl h
  | cons c rest =>
    cases rest with
    | nil => simp [replaceDD_singleton]
    | cons d rest2 =>
      rw [replaceDD_cons_cons]
      by_cases hdd : (c == '-' && d == '-') = true
      · rw [if_pos hdd]; simp
      · rw [if_neg hdd]; simp

theorem head?_replaceDD {l : List Char} (h : l.head? ≠ some '-') :
    (replaceDD l).head? = l.head? := by
  cases l with
  | nil => rfl
  | cons c rest =>
    have hc : (c == '-') = false := by
      simp only [List.head?_cons, ne_eq, Option.some.injEq] at h
      simpa using h
    cases rest with
    | nil => rw [replaceDD_singleton]
    | cons d rest2 =>
      rw [replaceDD_cons_cons, if_neg (by simp [hc])]
      rfl

theorem getLast?_replaceDD_ne : ∀ {l : List Char}, l.getLast? ≠ some '-' →
    (replaceDD l).getLast? ≠ some '-' := by
  intro l
  induction l using replaceDD.induct with
  | case1 => intro h; rw [replaceDD_nil]; exact h
  | case2 d => intro h; rw [replaceDD_singleton]; exact h
  | case3 c d rest hdd ih =>
    intro h
    rw [replaceDD_cons_cons, if_pos hdd]
    have hd : d = '-' := by simpa using (Bool.and_eq_true_iff.mp hdd).2
    cases rest with
    | nil =>
      rw [List.getLast?_cons_cons, hd] at h
      simp at h
    | cons e rest2 =>
      have hr : (e :: rest2).getLast? ≠ some '-' := by
        rw [List.getLast?_cons_cons, List.getLast?_cons_cons] at h
        exact h
      rw [getLast?_cons_ne_nil (replaceDD_ne_nil (by simp))]
      exact ih hr
  | case4 c d rest hdd ih =>
    intro h
    rw [replaceDD_cons_cons, if_neg (by simp [hdd])]
    have hr : (d :: rest).getLast? ≠ some '-' := by
      rw [List.getLast?_cons_cons] at h
      exact h
    rw [getLast?_cons_ne_nil (replaceDD_ne_nil (by simp))]
    exact ih hr

theorem replaceDD_id : ∀ {l : List Char}, hasDD l = false → replaceDD l = l := by
  intro l
  induction l using replaceDD.induct with
  | case1 => intro _; rfl
  | case2 d => intro _; rfl
  | case3 c d rest hdd ih =>
    intro h
    rw [hasDD_cons_cons, hdd] at h
    simp at h
  | case4 c d rest hdd ih =>
    intro h
    rw [hasDD_cons_cons] at h
    rw [replaceDD_cons_cons, if_neg (by simp [hdd])]
    rw [ih (by rw [Bool.of_not_eq_true hdd, Bool.false_or] at h; exact h)]

theorem collapseLoop_id {l : List Char} (h : hasDD l = false) :
    ∀ n, collapseLoop n l = l := by
  intro n
  cases n with
  | zero => rfl
  | succ m => unfold collapseLoop; rw [h]; simp

theorem hasDD_collapseLoop : ∀ (n : Nat) (l : List Char), l.length ≤ n →
    hasDD (collapseLoop n l) = false := by
  intro n
  induction n with
  | zero =>
    intro l hl
    have : l = [] := List.length_eq_zero.mp (Nat.le_zero.mp hl)
    rw [this]
    rfl
  | succ m ih =>
    intro l hl
    unfold collapseLoop
    by_cases hdd : hasDD l = true
    · rw [hdd]
      simp only [if_pos trivial]
      exact ih _ (by have := length_replaceDD_lt hdd; omega)
    · rw [Bool.of_not_eq_true hdd]
      simpa using Bool.of_not_eq_true hdd

theorem mem_collapseLoop : ∀ (n : Nat) {l : List Char} {c : Char},
    c ∈ collapseLoop n l → c ∈ l := by
  intro n
  induction n with
  | zero => intro l c h; exact h
  | succ m ih =>
    intro l c h
    unfold collapseLoop at h
    by_cases hdd : hasDD l = true
    · rw [hdd] at h
      simp only [if_pos trivial] at h
      exact mem_replaceDD (ih h)
    · rw [Bool.of_not_eq_true hdd] at h
      simpa using h

theorem head?_collapseLoop_ne : ∀ (n : Nat) {l : List Char},
    l.head? ≠ some '-' → (collapseLoop n l).head? ≠ some '-' := by
  intro n
  induction n with
  | zero => intro l h; exact h
  | succ m ih =>
    intro l h
    unfold collapseLoop
    by_cases hdd : hasDD l = true
    · rw [hdd]
      simp only [if_pos trivial]
      exact ih (by rw [head?_replaceDD h]; exact h)
    · rw [Bool.of_not_eq_true hdd]
      simpa using h

theorem getLast?_collapseLoop_ne : ∀ (n : Nat) {l : List Char},
    l.getLast? ≠ some '-' → (collapseLoop n l).getLast? ≠ some '-' := by
  intro n
  induction n with
  | zero => intro l h; exact h
  | succ m ih =>
    intro l h
    unfold collapseLoop
    by_cases hdd : hasDD l = true
    · rw [hdd]
      simp only [if_pos trivial]
      exact ih (getLast?_replaceDD_ne h)
    · rw [Bool.of_not_eq_true hdd]
      simpa using h


/-! ## Sanitizer shape and idempotence -/

theorem nameOK_dash : nameOK '-' = true := by decide

theorem storageOK_dash : storageOK '-' = true := by decide

theorem beq_dash_goLower {c : Char} : (goLower c == '-') = (c == '-') := by
  by_cases h : c = '-'
  · rw [h]
    decide
  · have h2 : goLower c ≠ '-' := fun he => h (goLower_dash_iff.mp he)
    rw [beq_eq_false_iff_ne.mpr h2, beq_eq_false_iff_ne.mpr h]

theorem hasDD_map_goLower : ∀ l : List Char, hasDD (l.map goLower) = hasDD l := by
  intro l
  induction l using hasDD.induct with
  | case1 => rfl
  | case2 c => rfl
  | case3 c d rest ih =>
    simp only [List.map_cons]
    rw [hasDD_cons_cons, hasDD_cons_cons, beq_dash_goLower, beq_dash_goLower]
    rw [show (goLower d :: rest.map goLower) = (d :: rest).map goLower from rfl, ih]

theorem head?_map_goLower_ne {l : List Char} (h : l.head? ≠ some '-') :
    (l.map goLower).head? ≠ some '-' := by
  rw [List.head?_map]
  intro he
  rcases Option.map_eq_some'.mp he with ⟨x, hx, hgx⟩
  exact h (by rw [hx, goLower_dash_iff.mp hgx])

theorem getLast?_map_goLower_ne {l : List Char} (h : l.getLast? ≠ some '-') :
    (l.map goLower).getLast? ≠ some '-' := by
  rw [List.getLast?_map]
  intro he
  rcases Option.map_eq_some'.mp he with ⟨x, hx, hgx⟩
  exact h (by rw [hx, goLower_dash_iff.mp hgx])

theorem head?_trimDashes_ne (l : List Char) : (trimDashes l).head? ≠ some '-' := by
  intro he
  unfold trimDashes at he
  have h2 := head?_goTrim (p := fun c => c == '-') he
  simp at h2

theorem getLast?_trimDashes_ne (l : List Char) : (trimDashes l).getLast? ≠ some '-' := by
  intro he
  unfold trimDashes at he
  have h2 := getLast?_goTrim (p := fun c => c == '-') he
  simp at h2

theorem mem_trimDashes {l : List Char} {c : Char} (h : c ∈ trimDashes l) : c ∈ l :=
  mem_goTrim h

theorem sanitizeName_shape (s : String) : dashShape lowerOK (sanitizeName s) := by
  unfold sanitizeName dashShape noEdgeDash
  refine ⟨?_, ⟨?_, ?_⟩, ?_⟩
  · rw [List.all_eq_true]
    intro c hc
    rcases List.mem_map.mp hc with ⟨x, hx, hgx⟩
    have hxcls : nameOK x = true := by
      rcases mem_repRunsAux (mem_trimDashes (mem_collapseDashAux hx)) with h | h
      · exact h
      · exact h ▸ nameOK_dash
    exact hgx ▸ lowerOK_goLower_of_nameOK hxcls
  · apply head?_map_goLower_ne
    unfold collapseDashes
    rw [head?_collapseDashAux_false (head?_trimDashes_ne _)]
    exact head?_trimDashes_ne _
  · exact getLast?_map_goLower_ne (getLast?_collapseDashAux (getLast?_trimDashes_ne _) false)
  · rw [hasDD_map_goLower]
    exact (collapseDashAux_core _).2 false

theorem sanitizeRepoName_shape (s : String) : dashShape lowerOK (sanitizeRepoName s) := by
  unfold sanitizeRepoName dashShape noEdgeDash
  refine ⟨?_, ⟨?_, ?_⟩, ?_⟩
  · rw [List.all_eq_true]
    intro c hc
    rcases List.mem_map.mp hc with ⟨x, hx, hgx⟩
    have hxcls : nameOK x = true := by
      rcases mem_repEach (mem_trimDashes (mem_collapseLoop _ hx)) with h | h
      · exact h
      · exact h ▸ nameOK_dash
    exact hgx ▸ lowerOK_goLower_of_nameOK hxcls
  · exact head?_map_goLower_ne (head?_collapseLoop_ne _ (head?_trimDashes_ne _))
  · exact getLast?_map_goLower_ne (getLast?_collapseLoop_ne _ (getLast?_trimDashes_ne _))
  · rw [hasDD_map_goLower]
    exact hasDD_collapseLoop _ _ (Nat.le_refl _)

theorem sanitizeStorageName_shape (s : String) :
    dashShape lowerStorageOK (sanitizeStorageName s) := by
  unfold sanitizeStorageName
  by_cases hnil :
      collapseLoop (trimDashes (repRunsAux storageOK false (trimSpaceL s.data))).length
        (trimDashes (repRunsAux storageOK false (trimSpaceL s.data))) = []
  · rw [if_pos hnil]
    decide
  · rw [if_neg hnil]
    unfold dashShape noEdgeDash
    refine ⟨?_, ⟨?_, ?_⟩, ?_⟩
    · rw [List.all_eq_true]
      intro c hc
      rcases List.mem_map.mp hc with ⟨x, hx, hgx⟩
      have hxcls : storageOK x = true := by
        rcases mem_repRunsAux (mem_trimDashes (mem_collapseLoop _ hx)) with h | h
        · exact h
        · exact h ▸ storageOK_dash
      exact hgx ▸ lowerStorageOK_goLower_of_storageOK hxcls
    · exact head?_map_goLower_ne (head?_collapseLoop_ne _ (head?_trimDashes_ne _))
    · exact getLast?_map_goLower_ne (getLast?_collapseLoop_ne _ (getLast?_trimDashes_ne _))
    · rw [hasDD_map_goLower]
      exact hasDD_collapseLoop _ _ (Nat.le_refl _)


theorem string_data_mk (l : List Char) : (String.mk l).data = l := rfl

theorem string_ne_empty_of_data {u : String} (h : u.data ≠ []) : u ≠ "" := by
  intro he
  rw [he] at h
  exact h rfl

theorem trimDashes_eq_self {l : List Char} (h1 : l.head? ≠ some '-')
    (h2 : l.getLast? ≠ some '-') : trimDashes l = l := by
  unfold trimDashes
  apply goTrim_eq_self
  · intro c hc
    simp only [beq_eq_false_iff_ne, ne_eq]
    intro he
    exact h1 (he ▸ hc)
  · intro c hc
    simp only [beq_eq_false_iff_ne, ne_eq]
    intro he
    exact h2 (he ▸ hc)

theorem isGoSpace_iff {c : Char} : isGoSpace c = true ↔
    c.toNat = 32 ∨ c.toNat = 9 ∨ c.toNat = 10 ∨ c.toNat = 11 ∨
      c.toNat = 12 ∨ c.toNat = 13 := by
  have e1 : (c == ' ') = true ↔ c.toNat = 32 := by
    rw [beq_iff_eq, char_eq_iff_toNat]; exact Iff.rfl
  have e2 : (c == '\t') = true ↔ c.toNat = 9 := by
    rw [beq_iff_eq, char_eq_iff_toNat]; exact Iff.rfl
  have e3 : (c == '\n') = true ↔ c.toNat = 10 := by
    rw [beq_iff_eq, char_eq_iff_toNat]; exact Iff.rfl
  have e4 : (c == '\x0b') = true ↔ c.toNat = 11 := by
    rw [beq_iff_eq, char_eq_iff_toNat]; exact Iff.rfl
  have e5 : (c == '\x0c') = true ↔ c.toNat = 12 := by
    rw [beq_iff_eq, char_eq_iff_toNat]; exact Iff.rfl
  have e6 : (c == '\r') = true ↔ c.toNat = 13 := by
    rw [beq_iff_eq, char_eq_iff_toNat]; exact Iff.rfl
  simp only [isGoSpace, Bool.or_eq_true, e1, e2, e3, e4, e5, e6]
  omega

theorem lowerStorageOK_not_space {c : Char} (h : lowerStorageOK c = true) :
    isGoSpace c = false := by
  rw [lowerStorageOK_iff] at h
  cases hgs : isGoSpace c with
  | false => rfl
  | true =>
    have := isGoSpace_iff.mp hgs
    omega

theorem trimSpaceL_eq_self {l : List Char}
    (h : ∀ c ∈ l, lowerStorageOK c = true) : trimSpaceL l = l := by
  unfold trimSpaceL
  apply goTrim_eq_self
  · intro c hc
    exact lowerStorageOK_not_space (h c (List.mem_of_mem_head? (by rw [hc]; rfl)))
  · intro c hc
    have hm : c ∈ l := by
      have h1 : c ∈ l.reverse.head? := by rw [List.head?_reverse, hc]; rfl
      exact List.mem_reverse.mp (List.mem_of_mem_head? h1)
    exact lowerStorageOK_not_space (h c hm)

theorem sanitizeName_of_shape {u : String} (h : dashShape lowerOK u) :
    sanitizeName u = u := by
  rcases h with ⟨hall, ⟨hhead, hlast⟩, hdd⟩
  rw [List.all_eq_true] at hall
  show String.mk (((collapseDashes (trimDashes (repRunsAux nameOK false u.data)))).map goLower) = u
  rw [repRunsAux_id (fun c hc => nameOK_of_lowerOK (hall c hc)) false]
  rw [trimDashes_eq_self hhead hlast]
  unfold collapseDashes
  rw [collapseDashAux_id false hdd (fun hb => by simp at hb)]
  rw [map_id_of_mem (fun c hc => goLower_of_lowerOK (hall c hc))]

theorem sanitizeRepoName_of_shape {u : String} (h : dashShape lowerOK u) :
    sanitizeRepoName u = u := by
  rcases h with ⟨hall, ⟨hhead, hlast⟩, hdd⟩
  rw [List.all_eq_true] at hall
  show String.mk ((collapseLoop (trimDashes (repEach nameOK u.data)).length
      (trimDashes (repEach nameOK u.data))).map goLower) = u
  rw [repEach_id (fun c hc => nameOK_of_lowerOK (hall c hc))]
  rw [trimDashes_eq_self hhead hlast]
  rw [collapseLoop_id hdd]
  rw [map_id_of_mem (fun c hc => goLower_of_lowerOK (hall c hc))]

theorem sanitizeStorageName_of_shape {u : String} (h : dashShape lowerStorageOK u)
    (hne : u.data ≠ []) : sanitizeStorageName u = u := by
  rcases h with ⟨hall, ⟨hhead, hlast⟩, hdd⟩
  rw [List.all_eq_true] at hall
  show (if collapseLoop (trimDashes (repRunsAux storageOK false (trimSpaceL u.data))).length
        (trimDashes (repRunsAux storageOK false (trimSpaceL u.data))) = []
      then "unnamed"
      else String.mk
        ((collapseLoop (trimDashes (repRunsAux storageOK false (trimSpaceL u.data))).length
          (trimDashes (repRunsAux storageOK false (trimSpaceL u.data)))).map goLower)) = u
  rw [trimSpaceL_eq_self hall]
  rw [repRunsAux_id (fun c hc => storageOK_of_lowerStorageOK (hall c hc)) false]
  rw [trimDashes_eq_self hhead hlast]
  rw [collapseLoop_id hdd]
  rw [if_neg hne]
  rw [map_id_of_mem (fun c hc => goLower_of_lowerStorageOK (hall c hc))]

theorem sanitizeName_idem (s : String) :
    sanitizeName (sanitizeName s) = sanitizeName s :=
  sanitizeName_of_shape (sanitizeName_shape s)

theorem sanitizeRepoName_idem (s : String) :
    sanitizeRepoName (sanitizeRepoName s) = sanitizeRepoName s :=
  sanitizeRepoName_of_shape (sanitizeRepoName_shape s)

theorem sanitizeStorageName_ne_empty (s : String) : sanitizeStorageName s ≠ "" := by
  unfold sanitizeStorageName
  by_cases hnil :
      collapseLoop (trimDashes (repRunsAux storageOK false (trimSpaceL s.data))).length
        (trimDashes (repRunsAux storageOK false (trimSpaceL s.data))) = []
  · rw [if_pos hnil]
    decide
  · rw [if_neg hnil]
    apply string_ne_empty_of_data
    rw [string_data_mk]
    intro hm
    exact hnil (List.map_eq_nil_iff.mp hm)

theorem sanitizeStorageName_idem (s : String) :
    sanitizeStorageName (sanitizeStorageName s) = sanitizeStorageName s := by
  apply sanitizeStorageName_of_shape (sanitizeStorageName_shape s)
  intro hm
  apply sanitizeStorageName_ne_empty s
  rw [← string_mk_data (sanitizeStorageName s), hm]


/-! ## Claim C7 and C8 -/

/-- C7: the claim asserts that every sanitizer output consists only of
characters from `[a-z0-9-]`. `sanitizeStorageName` refutes this: its
character class additionally admits `_`, so `"a_b"` sanitizes to itself
while containing an underscore. -/
theorem C7_counterexample_storage_underscore :
    sanitizeStorageName "a_b" = "a_b" ∧
      ¬ ((sanitizeStorageName "a_b").data.all lowerOK = true) := by
  constructor
  · decide
  · decide

/-- C7 (amended): all three sanitizers are total Lean functions and
idempotent, with output free of leading, trailing and doubled dashes;
`sanitizeName` and `sanitizeRepoName` produce only `[a-z0-9-]`, while
`sanitizeStorageName` produces only `[a-z0-9-_]` (underscores survive its
character class). -/
theorem C7_sanitizers_idempotent_and_shaped :
    (∀ s, sanitizeName (sanitizeName s) = sanitizeName s ∧
      dashShape lowerOK (sanitizeName s)) ∧
    (∀ s, sanitizeRepoName (sanitizeRepoName s) = sanitizeRepoName s ∧
      dashShape lowerOK (sanitizeRepoName s)) ∧
    (∀ s, sanitizeStorageName (sanitizeStorageName s) = sanitizeStorageName s ∧
      dashShape lowerStorageOK (sanitizeStorageName s)) :=
  ⟨fun s => ⟨sanitizeName_idem s, sanitizeName_shape s⟩,
   fun s => ⟨sanitizeRepoName_idem s, sanitizeRepoName_shape s⟩,
   fun s => ⟨sanitizeStorageName_idem s, sanitizeStorageName_shape s⟩⟩

/-- C8: the claim asserts that sanitizing a string whose cleaned form is
empty yields the fallback `"unnamed"`. The git adapter's `sanitizeName`
refutes this: it has no fallback and maps `"!!!"` to the empty string. -/
theorem C8_counterexample_no_fallback :
    sanitizeName "!!!" = "" ∧ sanitizeName "!!!" ≠ "unnamed" := by
  constructor
  · decide
  · decide

/-- C8 (amended): only `sanitizeStorageName` has the `"unnamed"` fallback —
it never returns the empty string and maps all-punctuation or all-space
input to `"unnamed"` — while `sanitizeName` and `sanitizeRepoName` return
the empty string for such input. -/
theorem C8_storage_fallback_only :
    (∀ s, sanitizeStorageName s ≠ "") ∧
    sanitizeStorageName "!!!" = "unnamed" ∧
    sanitizeStorageName "   " = "unnamed" ∧
    sanitizeRepoName "!!!" = "" :=
  ⟨sanitizeStorageName_ne_empty, by decide, by decide, by decide⟩


/-! ## Data model

Translated from `internal/state/state.go` and the `internal/config` version
that `internal/ui/model.go` compiles against (`Repository` with a
`PostCreateScript` field, `Config` with a `WorktreeNotes` list). -/

structure Worktree where
  name : String
  branch : String
  path : String
deriving DecidableEq

structure Repository where
  name : String
  path : String
  typ : String
  url : String
  postCreateScript : String
deriving DecidableEq

structure WorktreeNote where
  path : String
  notes : String
deriving DecidableEq

structure Config where
  rootDirectory : String
  repositories : List Repository
  yankTemplate : String
  worktreeNotes : List WorktreeNote
deriving DecidableEq

/-! ## Worktree-notes operations (`Config.{Get,Set,Delete}WorktreeNotes`) -/

/-- `Config.GetWorktreeNotes`: the notes of the first entry for `path`,
or the empty string. -/
def getWorktreeNotes (c : Config) (path : String) : String :=
  match c.worktreeNotes.find? (fun note => note.path == path) with
  | some note => note.notes
  | none => ""

/-- The list transformation of `Config.SetWorktreeNotes`: the first entry
for `path` is removed (empty `notes`) or updated in place; if no entry
exists and `notes` is non-empty, a new entry is appended at the end. -/
def setNotesList (path notes : String) : List WorktreeNote → List WorktreeNote
  | [] => if notes == "" then [] else [⟨path, notes⟩]
  | note :: rest =>
    if note.path == path then
      if notes == "" then rest
      else { note with notes := notes } :: rest
    else note :: setNotesList path notes rest

/-- `Config.SetWorktreeNotes`. -/
def setWorktreeNotes (c : Config) (path notes : String) : Config :=
  { c with worktreeNotes := setNotesList path notes c.worktreeNotes }

/-- The list transformation of `Config.DeleteWorktreeNotes`: the first entry
for `path` is removed. -/
def deleteNotesList (path : String) : List WorktreeNote → List WorktreeNote
  | [] => []
  | note :: rest =>
    if note.path == path then rest
    else note :: deleteNotesList path rest

/-- `Config.DeleteWorktreeNotes`. -/
def deleteWorktreeNotes (c : Config) (path : String) : Config :=
  { c with worktreeNotes := deleteNotesList path c.worktreeNotes }

/-- Well-formedness of the notes list: one entry per path, no empty notes
text. It holds for every configuration the engine itself builds up from the
default (empty) one. -/
def notesInv (l : List WorktreeNote) : Prop :=
  (l.map (fun e => e.path)).Nodup ∧ ∀ e ∈ l, e.notes ≠ ""

instance (l : List WorktreeNote) : Decidable (notesInv l) := by
  unfold notesInv
  infer_instance


/-! ## Facts about the notes operations (claim C10) -/

theorem findNotes_no_entry {p : String} {l : List WorktreeNote}
    (h : ∀ e ∈ l, e.path ≠ p) :
    (match l.find? (fun e => e.path == p) with
      | some e => e.notes | none => "") = "" := by
  have : l.find? (fun e => e.path == p) = none := by
    rw [List.find?_eq_none]
    intro e he
    simpa using h e he
  rw [this]

theorem mem_setNotesList {p n : String} {l : List WorktreeNote} {e : WorktreeNote}
    (h : e ∈ setNotesList p n l) : e ∈ l ∨ (e.path = p ∧ e.notes = n) := by
  induction l with
  | nil =>
    unfold setNotesList at h
    by_cases hn : (n == "") = true
    · rw [if_pos hn] at h
      simp at h
    · rw [if_neg hn] at h
      rcases List.mem_singleton.mp h with rfl
      exact Or.inr ⟨rfl, rfl⟩
  | cons x rest ih =>
    unfold setNotesList at h
    by_cases hx : (x.path == p) = true
    · rw [if_pos hx] at h
      by_cases hn : (n == "") = true
      · rw [if_pos hn] at h
        exact Or.inl (List.mem_cons_of_mem x h)
      · rw [if_neg hn] at h
        rcases List.mem_cons.mp h with rfl | h
        · exact Or.inr ⟨by simpa using hx, rfl⟩
        · exact Or.inl (List.mem_cons_of_mem x h)
    · rw [if_neg hx] at h
      rcases List.mem_cons.mp h with rfl | h
      · exact Or.inl (List.mem_cons_self _ _)
      · rcases ih h with h | h
        · exact Or.inl (List.mem_cons_of_mem x h)
        · exact Or.inr h

theorem mem_setNotesList_empty {p : String} {l : List WorktreeNote} {e : WorktreeNote}
    (h : e ∈ setNotesList p "" l) : e ∈ l := by
  induction l with
  | nil =>
    unfold setNotesList at h
    rw [if_pos (by decide)] at h
    simp at h
  | cons x rest ih =>
    unfold setNotesList at h
    by_cases hx : (x.path == p) = true
    · rw [if_pos hx, if_pos (by decide)] at h
      exact List.mem_cons_of_mem x h
    · rw [if_neg hx] at h
      rcases List.mem_cons.mp h with rfl | h
      · exact List.mem_cons_self _ _
      · exact List.mem_cons_of_mem x (ih h)

theorem setNotesList_no_entry_of_empty {p : String} {l : List WorktreeNote}
    (hnd : (l.map (fun e => e.path)).Nodup) :
    ∀ e ∈ setNotesList p "" l, e.path ≠ p := by
  induction l with
  | nil =>
    intro e he
    unfold setNotesList at he
    rw [if_pos (by decide)] at he
    simp at he
  | cons x rest ih =>
    intro e he
    unfold setNotesList at he
    rw [List.map_cons, List.nodup_cons] at hnd
    by_cases hx : (x.path == p) = true
    · rw [if_pos hx, if_pos (by decide)] at he
      intro hep
      have hxp : x.path = p := by simpa using hx
      exact hnd.1 (List.mem_map.mpr ⟨e, he, by rw [hep, hxp]⟩)
    · rw [if_neg hx] at he
      rcases List.mem_cons.mp he with rfl | he
      · simpa using hx
      · exact ih hnd.2 e he

theorem findNote_cons_pos {q : String} {x : WorktreeNote} {l : List WorktreeNote}
    (h : (x.path == q) = true) :
    (x :: l).find? (fun e => e.path == q) = some x :=
  @List.find?_cons_of_pos _ (fun e => e.path == q) x l h

theorem findNote_cons_neg {q : String} {x : WorktreeNote} {l : List WorktreeNote}
    (h : (x.path == q) = false) :
    (x :: l).find? (fun e => e.path == q) = l.find? (fun e => e.path == q) :=
  @List.find?_cons_of_neg _ (fun e => e.path == q) x l (by simp [h])

theorem getNotes_set_same {p n : String} {l : List WorktreeNote} (hn : n ≠ "") :
    (match (setNotesList p n l).find? (fun e => e.path == p) with
      | some e => e.notes | none => "") = n := by
  induction l with
  | nil =>
    unfold setNotesList
    rw [if_neg (by simpa using hn)]
    rw [findNote_cons_pos (by simp)]
  | cons x rest ih =>
    unfold setNotesList
    by_cases hx : (x.path == p) = true
    · rw [if_pos hx, if_neg (by simpa using hn)]
      rw [@findNote_cons_pos p ⟨x.path, n⟩ rest hx]
    · rw [if_neg hx]
      rw [findNote_cons_neg (Bool.of_not_eq_true hx)]
      exact ih

theorem getNotes_set_other {p n q : String} {l : List WorktreeNote} (hq : q ≠ p) :
    (match (setNotesList p n l).find? (fun e => e.path == q) with
      | some e => e.notes | none => "") =
    (match l.find? (fun e => e.path == q) with
      | some e => e.notes | none => "") := by
  induction l with
  | nil =>
    unfold setNotesList
    by_cases hn : (n == "") = true
    · rw [if_pos hn]
    · rw [if_neg hn]
      rw [findNote_cons_neg (beq_eq_false_iff_ne.mpr (fun h => hq h.symm))]
  | cons x rest ih =>
    unfold setNotesList
    by_cases hx : (x.path == p) = true
    · have hxp : x.path = p := by simpa using hx
      have hxq : (x.path == q) = false := by
        apply beq_eq_false_iff_ne.mpr
        rw [hxp]
        exact fun h2 => hq h2.symm
      rw [if_pos hx]
      by_cases hn : (n == "") = true
      · rw [if_pos hn]
        conv_rhs => rw [findNote_cons_neg hxq]
      · rw [if_neg hn]
        rw [@findNote_cons_neg q ⟨x.path, n⟩ rest hxq]
        rw [findNote_cons_neg hxq]
    · rw [if_neg hx]
      by_cases hxq : (x.path == q) = true
      · rw [findNote_cons_pos hxq]
        conv_rhs => rw [findNote_cons_pos hxq]
      · rw [findNote_cons_neg (Bool.of_not_eq_true hxq)]
        conv_rhs => rw [findNote_cons_neg (Bool.of_not_eq_true hxq)]
        exact ih

theorem notesInv_setNotesList {p n : String} {l : List WorktreeNote}
    (h : notesInv l) (hn : n ≠ "") : notesInv (setNotesList p n l) := by
  rcases h with ⟨hnd, hne⟩
  constructor
  · clear hne
    induction l with
    | nil =>
      unfold setNotesList
      rw [if_neg (by simpa using hn)]
      simp
    | cons x rest ih =>
      rw [List.map_cons, List.nodup_cons] at hnd
      unfold setNotesList
      by_cases hx : (x.path == p) = true
      · rw [if_pos hx, if_neg (by simpa using hn)]
        rw [List.map_cons, List.nodup_cons]
        exact ⟨hnd.1, hnd.2⟩
      · rw [if_neg hx]
        rw [List.map_cons, List.nodup_cons]
        constructor
        · intro hmem
          rcases List.mem_map.mp hmem with ⟨e, he, hep⟩
          rcases mem_setNotesList he with he2 | he2
          · exact hnd.1 (List.mem_map.mpr ⟨e, he2, hep⟩)
          · exact (by simpa using hx : x.path ≠ p) (hep ▸ he2.1)
        · exact ih hnd.2
  · intro e he
    rcases mem_setNotesList he with he2 | he2
    · exact hne e he2
    · rw [he2.2]
      exact hn

theorem notesInv_setNotesList_empty {p : String} {l : List WorktreeNote}
    (h : notesInv l) : notesInv (setNotesList p "" l) := by
  rcases h with ⟨hnd, hne⟩
  constructor
  · clear hne
    induction l with
    | nil =>
      unfold setNotesList
      rw [if_pos (by decide)]
      simp
    | cons x rest ih =>
      rw [List.map_cons, List.nodup_cons] at hnd
      unfold setNotesList
      by_cases hx : (x.path == p) = true
      · rw [if_pos hx, if_pos (by decide)]
        exact hnd.2
      · rw [if_neg hx]
        rw [List.map_cons, List.nodup_cons]
        constructor
        · intro hmem
          rcases List.mem_map.mp hmem with ⟨e, he, hep⟩
          exact hnd.1 (List.mem_map.mpr ⟨e, mem_setNotesList_empty he, hep⟩)
        · exact ih hnd.2
  · intro e he
    exact hne e (mem_setNotesList_empty he)


/-- C10: the claim quantifies over every configuration, but a configuration
whose notes list holds two entries for the same path refutes the empty-notes
clause: `SetWorktreeNotes(p, "")` removes only the first entry, after which
`GetWorktreeNotes(p)` returns the second entry's text instead of `""`. -/
theorem C10_counterexample_duplicate_paths :
    getWorktreeNotes
      (setWorktreeNotes ⟨"", [], "", [⟨"p", "x"⟩, ⟨"p", "y"⟩]⟩ "p" "") "p" = "y" ∧
    ("y" : String) ≠ "" := by
  constructor
  · decide
  · decide

/-- C10 (amended): for every configuration whose notes list is well-formed
(at most one entry per path, no empty notes text — the invariant every
engine-built configuration satisfies and which `SetWorktreeNotes`
preserves): after `SetWorktreeNotes(p, n)`, `GetWorktreeNotes(p)` returns
`n` when `n` is non-empty; when `n` is empty it returns `""` and no entry
for `p` remains; entries for every other path are unchanged; and the
resulting notes list again holds no empty-notes entry. -/
theorem C10_set_get_worktree_notes (c : Config) (p n : String)
    (h : notesInv c.worktreeNotes) :
    (n ≠ "" → getWorktreeNotes (setWorktreeNotes c p n) p = n) ∧
    (n = "" → getWorktreeNotes (setWorktreeNotes c p n) p = "" ∧
      ∀ e ∈ (setWorktreeNotes c p n).worktreeNotes, e.path ≠ p) ∧
    (∀ q, q ≠ p → getWorktreeNotes (setWorktreeNotes c p n) q = getWorktreeNotes c q) ∧
    notesInv (setWorktreeNotes c p n).worktreeNotes := by
  refine ⟨?_, ?_, ?_, ?_⟩
  · intro hn
    exact getNotes_set_same hn
  · intro hn
    subst hn
    have hno := setNotesList_no_entry_of_empty (p := p) h.1
    exact ⟨findNotes_no_entry hno, hno⟩
  · intro q hq
    exact getNotes_set_other hq
  · by_cases hn : n = ""
    · subst hn
      exact notesInv_setNotesList_empty h
    · exact notesInv_setNotesList h hn

/-- Witness for `C10_set_get_worktree_notes` at a concrete configuration. -/
theorem C10_set_get_worktree_notes_witness :
    notesInv (Config.mk "" [] "" [⟨"/w/a", "keep"⟩]).worktreeNotes ∧
    ((("note" : String) ≠ "" →
        getWorktreeNotes
          (setWorktreeNotes (Config.mk "" [] "" [⟨"/w/a", "keep"⟩]) "/w/b" "note")
          "/w/b" = "note") ∧
      (("note" : String) = "" →
        getWorktreeNotes
          (setWorktreeNotes (Config.mk "" [] "" [⟨"/w/a", "keep"⟩]) "/w/b" "note")
          "/w/b" = "" ∧
        ∀ e ∈ (setWorktreeNotes (Config.mk "" [] "" [⟨"/w/a", "keep"⟩]) "/w/b"
            "note").worktreeNotes, e.path ≠ "/w/b") ∧
      (∀ q, q ≠ "/w/b" →
        getWorktreeNotes
          (setWorktreeNotes (Config.mk "" [] "" [⟨"/w/a", "keep"⟩]) "/w/b" "note") q =
        getWorktreeNotes (Config.mk "" [] "" [⟨"/w/a", "keep"⟩]) q) ∧
      notesInv (setWorktreeNotes (Config.mk "" [] "" [⟨"/w/a", "keep"⟩]) "/w/b"
        "note").worktreeNotes) :=
  ⟨by decide, C10_set_get_worktree_notes (Config.mk "" [] "" [⟨"/w/a", "keep"⟩])
    "/w/b" "note" (by decide)⟩


/-! ## External-call environment and the git command adapter

Each external call's outcome is supplied by an `Env` record. Errors carry a
`notExist` marker only when they are bare ENOENT-style errors; every error
the Go code rebuilds with `fmt.Errorf` becomes `msg ...`, which
`os.IsNotExist` does not recognize (it never unwraps formatted errors). -/

inductive GErr
  | notExist
  | msg (s : String)
deriving DecidableEq

/-- The display text of an error (`%v` in the Go format strings). -/
def gerrText : GErr → String
  | .notExist => "file does not exist"
  | .msg s => s

/-- Go `os.IsNotExist` on our error values. -/
def isNotExist : GErr → Bool
  | .notExist => true
  | .msg _ => false

/-- Rewrap an error the way `fmt.Errorf("<pre>%v/%w...", err)` does: the
result is a formatted error, no longer recognized by `os.IsNotExist`. -/
def wrapErr {α : Type} (pre : String) : Except GErr α → Except GErr α
  | .ok a => .ok a
  | .error e => .error (.msg (pre ++ gerrText e))

/-- The `git worktree add` invocation chosen by `AddWorktree`: either attach
an existing branch, or create `branch` from `baseRef` (`-b`). -/
inductive WtAddCmd
  | attach (worktreePath branch : String)
  | createFrom (branch worktreePath baseRef : String)
deriving DecidableEq

/-- Results of all external calls a single engine step can make, plus the
text the user has committed in the active dialog or text area (the engine
reads those through dialog accessors at commit time). -/
structure Env where
  addRepoName : String
  addRepoPathOrURL : String
  addWorktreeBranch : String
  scriptText : String
  notesText : String
  statExists : String → Bool
  homeDir : Except GErr String
  mkdirParentRes : String → Except GErr Unit
  cloneRes : String → String → Except GErr Unit
  branchExists : String → String → Bool
  remoteBranchExists : String → String → Bool
  currentBranchRes : String → Except GErr String
  runWorktreeAdd : WtAddCmd → Except GErr Unit
  listWorktreesRes : String → Except GErr (List Worktree)
  removeWorktreeRes : String → String → Except GErr Unit
  deleteBranchRes : String → String → Except GErr Unit
  removeAllRes : String → Except GErr Unit
  saveConfigRes : Except GErr Unit
  execScriptRes : Except GErr Unit
  clipboardRes : Except GErr Unit

/-- `filepath.Join(dir, name)` for our purposes. -/
def joinPath (dir name : String) : String := dir ++ "/" ++ name

/-- `git.ListWorktrees`. -/
def gitListWorktrees (env : Env) (repoPath : String) : Except GErr (List Worktree) :=
  wrapErr "failed to list worktrees: " (env.listWorktreesRes repoPath)

/-- `git.GetCurrentBranch`. -/
def gitCurrentBranch (env : Env) (repoPath : String) : Except GErr String :=
  wrapErr "failed to get current branch: " (env.currentBranchRes repoPath)

/-- `git.RemoveWorktree` (`git worktree remove --force`). -/
def gitRemoveWorktree (env : Env) (repoPath wtPath : String) : Except GErr Unit :=
  wrapErr "failed to remove worktree: " (env.removeWorktreeRes repoPath wtPath)

/-- `git.DeleteBranch` (`git branch -D`). -/
def gitDeleteBranch (env : Env) (repoPath branch : String) : Except GErr Unit :=
  wrapErr "failed to delete branch: " (env.deleteBranchRes repoPath branch)

/-- `git.DeleteRepository`: errors with a freshly formatted (non-`notExist`)
error when the directory is absent, otherwise `os.RemoveAll` wrapped. -/
def gitDeleteRepository (env : Env) (repoPath : String) : Except GErr Unit :=
  if env.statExists repoPath = false then
    .error (.msg ("repository directory does not exist: " ++ repoPath))
  else
    wrapErr "failed to delete repository directory: " (env.removeAllRes repoPath)

/-- `git.CloneRepository`. -/
def gitClone (env : Env) (url targetPath : String) : Except GErr Unit :=
  if env.statExists targetPath then
    .error (.msg ("target path already exists: " ++ targetPath))
  else
    match wrapErr "failed to create parent directory: " (env.mkdirParentRes targetPath) with
    | .error e => .error e
    | .ok _ => wrapErr "failed to clone repository: " (env.cloneRes url targetPath)

instance {e a : Type} [DecidableEq e] [DecidableEq a] : DecidableEq (Except e a) := fun x y =>
  match x, y with
  | .ok v, .ok w =>
    if h : v = w then .isTrue (by rw [h]) else .isFalse (by intro he; cases he; exact h rfl)
  | .error v, .error w =>
    if h : v = w then .isTrue (by rw [h]) else .isFalse (by intro he; cases he; exact h rfl)
  | .ok _, .error _ => .isFalse (by intro he; cases he)
  | .error _, .ok _ => .isFalse (by intro he; cases he)

/-- `git.ExecutePostCreateScript` (`bash -c script` in the worktree dir;
the repo path and worktree path are the script's positional arguments). -/
def gitExecScript (env : Env) (script _repoPath _wtPath : String) : Except GErr Unit :=
  if script == "" then .ok ()
  else wrapErr "script execution failed: " env.execScriptRes

/-- The command `git.AddWorktree` ran together with its outcome. `cmd` is
`none` when the function returned before invoking `git worktree add`. -/
structure AddWtResult where
  cmd : Option WtAddCmd
  result : Except GErr Unit
deriving DecidableEq

/-- `git.AddWorktree`: branch-existence probe, name sanitizing, target-path
collision check, branch/base resolution (attach when the branch exists;
otherwise `-b` from `origin/main` / `origin/master` for remote repos or the
current branch for local ones), then the `git worktree add` invocation. -/
def gitAddWorktree (env : Env) (repoPath rootDir repoName branch : String)
    (isRemote : Bool) : AddWtResult :=
  let branchExistsHere := env.branchExists repoPath branch
  let worktreeName := sanitizeName repoName ++ "-" ++ sanitizeName branch
  let worktreePath := joinPath rootDir worktreeName
  if env.statExists worktreePath then
    { cmd := none, result := .error (.msg ("path already exists: " ++ worktreePath)) }
  else
    let cmdE : Except GErr WtAddCmd :=
      if branchExistsHere then
        .ok (.attach worktreePath branch)
      else if isRemote then
        .ok (.createFrom branch worktreePath
          (if env.remoteBranchExists repoPath "origin/main" then "origin/main"
           else "origin/master"))
      else
        match gitCurrentBranch env repoPath with
        | .ok cur => .ok (.createFrom branch worktreePath cur)
        | .error e => .error (.msg ("failed to get current branch: " ++ gerrText e))
    match cmdE with
    | .error e => { cmd := none, result := .error e }
    | .ok cmd =>
      match env.runWorktreeAdd cmd with
      | .ok _ => { cmd := some cmd, result := .ok () }
      | .error e =>
        { cmd := some cmd, result := .error (.msg ("failed to add worktree: " ++ gerrText e)) }


/-- C5: when the requested branch already exists, `AddWorktree` never
creates a branch from a base reference: any `git worktree add` it runs is a
plain attach of the existing branch, and the whole computation is
independent of the base-resolution oracle (`origin/main`/`origin/master`
probes and the current-branch query) — two environments that agree only on
the branch-existence probe, the path-collision check and the command runner
produce identical results. -/
theorem C5_existing_branch_attaches (env env2 : Env)
    (repoPath rootDir repoName branch : String) (isRemote : Bool)
    (hex : env.branchExists repoPath branch = true)
    (hbex : env2.branchExists = env.branchExists)
    (hstat : env2.statExists = env.statExists)
    (hrun : env2.runWorktreeAdd = env.runWorktreeAdd) :
    (∀ c, (gitAddWorktree env repoPath rootDir repoName branch isRemote).cmd = some c →
        c = .attach (joinPath rootDir (sanitizeName repoName ++ "-" ++ sanitizeName branch))
          branch) ∧
    gitAddWorktree env2 repoPath rootDir repoName branch isRemote =
      gitAddWorktree env repoPath rootDir repoName branch isRemote := by
  constructor
  · intro c hc
    unfold gitAddWorktree at hc
    simp only [hex, if_true] at hc
    by_cases hs : env.statExists
        (joinPath rootDir (sanitizeName repoName ++ "-" ++ sanitizeName branch)) = true
    · rw [if_pos hs] at hc
      simp at hc
    · rw [if_neg hs] at hc
      rcases hres : env.runWorktreeAdd
          (.attach (joinPath rootDir (sanitizeName repoName ++ "-" ++ sanitizeName branch))
            branch) with _ | e
      all_goals rw [hres] at hc
      all_goals simp at hc
      all_goals exact hc.symm
  · unfold gitAddWorktree
    rw [hbex, hstat, hrun, hex]
    rfl

/-- Witness for `C5_existing_branch_attaches` at a concrete environment. -/
theorem C5_existing_branch_attaches_witness :
    ∃ env : Env, env.branchExists "/r" "dev" = true ∧
      (∀ c, (gitAddWorktree env "/r" "/w" "repo" "dev" false).cmd = some c →
        c = .attach (joinPath "/w" (sanitizeName "repo" ++ "-" ++ sanitizeName "dev")) "dev") := by
  refine ⟨⟨"", "", "", "", "", fun _ => false, .ok "/home", fun _ => .ok (),
    fun _ _ => .ok (), fun _ _ => true, fun _ _ => false, fun _ => .ok "main",
    fun _ => .ok (), fun _ => .ok [], fun _ _ => .ok (), fun _ _ => .ok (),
    fun _ => .ok (), .ok (), .ok (), .ok ()⟩, rfl, ?_⟩
  exact (C5_existing_branch_attaches _ _ "/r" "/w" "repo" "dev" false rfl rfl rfl rfl).1

/-- C6: for a remote repository whose requested branch does not exist and
whose target path is free, `AddWorktree` runs branch creation with base
`origin/main` when that ref exists, and `origin/master` otherwise. -/
theorem C6_remote_base_resolution (env : Env) (repoPath rootDir repoName branch : String)
    (hex : env.branchExists repoPath branch = false)
    (hstat : env.statExists
      (joinPath rootDir (sanitizeName repoName ++ "-" ++ sanitizeName branch)) = false) :
    (env.remoteBranchExists repoPath "origin/main" = true →
      (gitAddWorktree env repoPath rootDir repoName branch true).cmd =
        some (.createFrom branch
          (joinPath rootDir (sanitizeName repoName ++ "-" ++ sanitizeName branch))
          "origin/main")) ∧
    (env.remoteBranchExists repoPath "origin/main" = false →
      (gitAddWorktree env repoPath rootDir repoName branch true).cmd =
        some (.createFrom branch
          (joinPath rootDir (sanitizeName repoName ++ "-" ++ sanitizeName branch))
          "origin/master")) := by
  constructor
  · intro hm
    unfold gitAddWorktree
    simp only [hex, hstat, hm, if_true, if_false, Bool.false_eq_true]
    rcases hres : env.runWorktreeAdd
        (.createFrom branch
          (joinPath rootDir (sanitizeName repoName ++ "-" ++ sanitizeName branch))
          "origin/main") with _ | e
    all_goals rfl
  · intro hm
    unfold gitAddWorktree
    simp only [hex, hstat, hm, if_true, if_false, Bool.false_eq_true]
    rcases hres : env.runWorktreeAdd
        (.createFrom branch
          (joinPath rootDir (sanitizeName repoName ++ "-" ++ sanitizeName branch))
          "origin/master") with _ | e
    all_goals rfl

/-- Witness for `C6_remote_base_resolution` at concrete environments, one
with `origin/main` present and one without. -/
theorem C6_remote_base_resolution_witness :
    ∃ env envM : Env,
      (gitAddWorktree env "/r" "/w" "repo" "dev" true).cmd =
        some (.createFrom "dev"
          (joinPath "/w" (sanitizeName "repo" ++ "-" ++ sanitizeName "dev")) "origin/main") ∧
      (gitAddWorktree envM "/r" "/w" "repo" "dev" true).cmd =
        some (.createFrom "dev"
          (joinPath "/w" (sanitizeName "repo" ++ "-" ++ sanitizeName "dev")) "origin/master") := by
  refine ⟨⟨"", "", "", "", "", fun _ => false, .ok "/home", fun _ => .ok (),
    fun _ _ => .ok (), fun _ _ => false, fun _ _ => true, fun _ => .ok "main",
    fun _ => .ok (), fun _ => .ok [], fun _ _ => .ok (), fun _ _ => .ok (),
    fun _ => .ok (), .ok (), .ok (), .ok ()⟩,
    ⟨"", "", "", "", "", fun _ => false, .ok "/home", fun _ => .ok (),
    fun _ _ => .ok (), fun _ _ => false, fun _ _ => false, fun _ => .ok "main",
    fun _ => .ok (), fun _ => .ok [], fun _ _ => .ok (), fun _ _ => .ok (),
    fun _ => .ok (), .ok (), .ok (), .ok ()⟩, ?_, ?_⟩
  · exact (C6_remote_base_resolution _ "/r" "/w" "repo" "dev" rfl rfl).1 rfl
  · exact (C6_remote_base_resolution _ "/r" "/w" "repo" "dev" rfl rfl).2 rfl


/-! ## Model state and the lifecycle workflows of `internal/ui/model.go`

`UIModel` keeps the fields of `ui.Model` that carry engine state; purely
presentational fields (width/height, the message strings, the dialog widget
internals) are omitted — the text a dialog or the notes textarea would
deliver on commit comes from the `Env`. Workflows return the new model, the
user-visible outcome (`showError` / `showSuccess` / quit / nothing) and a
trace of the external calls they issued. -/

inductive Pane
  | repos
  | worktrees
deriving DecidableEq

structure AppState where
  config : Config
  selectedRepoIndex : Int
  selectedWTIndex : Int
  activePane : Pane
  worktrees : List Worktree
deriving DecidableEq

inductive DialogType
  | none
  | addRepo
  | addWorktree
  | confirmDelete
  | confirmDeleteRepo
  | editScript
deriving DecidableEq

structure UIModel where
  state : AppState
  dialogType : DialogType
  editingNotes : Bool
  editingWorktreePath : String
deriving DecidableEq

inductive Outcome
  | none
  | quit
  | err (s : String)
  | success (s : String)
deriving DecidableEq

/-- Trace entry for each external adapter invocation a workflow performs
(recorded whether or not the call succeeds). -/
inductive Effect
  | listedWorktrees (repoPath : String)
  | listedBranches (repoPath : String)
  | clonedRepo (url target : String)
  | ranWorktreeAdd (cmd : WtAddCmd)
  | removedWorktree (repoPath wtPath : String)
  | deletedBranch (repoPath branch : String)
  | deletedRepoDir (repoPath : String)
  | savedConfig
  | ranScript (wtPath : String)
  | yanked (text : String)
deriving DecidableEq

structure StepResult where
  model : UIModel
  outcome : Outcome
  effects : List Effect
deriving DecidableEq

/-- Go slice indexing `l[i]` for an `int` index, as an `Option` (the Go code
only indexes behind bounds guards; a negative index would panic there). -/
def listGetI {α : Type} (l : List α) (i : Int) : Option α :=
  if 0 ≤ i then l.get? i.toNat else none

/-! ### `internal/state/state.go` -/

/-- `AppState.GetSelectedRepo`: `nil` for an empty list; otherwise clamps
`SelectedRepoIndex` down to `len-1` when it is past the end (a side effect
on the state) and returns the selected record. -/
def getSelectedRepoS (s : AppState) : Option Repository × AppState :=
  if s.config.repositories.length = 0 then (none, s)
  else
    let s2 :=
      if (s.config.repositories.length : Int) ≤ s.selectedRepoIndex then
        { s with selectedRepoIndex := (s.config.repositories.length : Int) - 1 }
      else s
    (listGetI s2.config.repositories s2.selectedRepoIndex, s2)

/-- `AppState.NextRepo` (wraps via `%`, resets the worktree cursor). -/
def nextRepo (s : AppState) : AppState :=
  if 0 < s.config.repositories.length then
    { s with
      selectedRepoIndex := (s.selectedRepoIndex + 1) % (s.config.repositories.length : Int),
      selectedWTIndex := 0 }
  else s

/-- `AppState.PrevRepo`. -/
def prevRepo (s : AppState) : AppState :=
  if 0 < s.config.repositories.length then
    let i := s.selectedRepoIndex - 1
    { s with
      selectedRepoIndex := if i < 0 then (s.config.repositories.length : Int) - 1 else i,
      selectedWTIndex := 0 }
  else s

/-- `AppState.NextWorktree`. -/
def nextWorktree (s : AppState) : AppState :=
  if 0 < s.worktrees.length then
    { s with selectedWTIndex := (s.selectedWTIndex + 1) % (s.worktrees.length : Int) }
  else s

/-- `AppState.PrevWorktree`. -/
def prevWorktree (s : AppState) : AppState :=
  if 0 < s.worktrees.length then
    let i := s.selectedWTIndex - 1
    { s with selectedWTIndex := if i < 0 then (s.worktrees.length : Int) - 1 else i }
  else s

/-- `AppState.TogglePane`. -/
def togglePane (s : AppState) : AppState :=
  { s with activePane := if s.activePane = .repos then .worktrees else .repos }

/-! ### Workflows -/

/-- `Model.loadWorktrees`: empty list when no repository is selected, the
path is absent, or the listing fails; on success the fresh list with the
worktree cursor reset to 0. -/
def loadWorktreesS (env : Env) (s : AppState) : AppState × List Effect :=
  match getSelectedRepoS s with
  | (none, s2) => ({ s2 with worktrees := [] }, [])
  | (some repo, s2) =>
    if env.statExists repo.path = false then
      ({ s2 with worktrees := [] }, [])
    else
      match gitListWorktrees env repo.path with
      | .error _ => ({ s2 with worktrees := [] }, [.listedWorktrees repo.path])
      | .ok ws =>
        ({ s2 with worktrees := ws, selectedWTIndex := 0 }, [.listedWorktrees repo.path])

/-- `inferRepoType` from the add-repository dialog. -/
def inferRepoType (path : String) : String :=
  let p := trimSpaceS path
  if p.startsWith "http://" || p.startsWith "https://" || p.startsWith "git@" ||
      p.startsWith "ssh://" then "remote"
  else "local"

/-- `Model.saveRepository`: dialog validation, duplicate-name check,
local path check or remote clone, config append + save, select the new
repository, reload worktrees. -/
def saveRepositoryStep (env : Env) (m : UIModel) : StepResult :=
  let name := trimSpaceS env.addRepoName
  let pathOrURL := trimSpaceS env.addRepoPathOrURL
  if name = "" then
    { model := m, outcome := .err "Name is required", effects := [] }
  else if pathOrURL = "" then
    { model := m, outcome := .err "Path/URL is required", effects := [] }
  else if m.state.config.repositories.any (fun r => r.name == name) then
    { model := m, outcome := .err "Repository with this name already exists", effects := [] }
  else
    let repoType := inferRepoType pathOrURL
    let resolved : Except Outcome (String × String) × List Effect :=
      if repoType = "local" then
        if env.statExists pathOrURL = false then (.error (.err "Path does not exist"), [])
        else (.ok (pathOrURL, ""), [])
      else
        let sanitizedName := sanitizeRepoName name
        let rootDir := trimSpaceS m.state.config.rootDirectory
        match (if rootDir = "" then env.homeDir else .ok rootDir) with
        | .error e => (.error (.err ("Failed to get home directory: " ++ gerrText e)), [])
        | .ok root =>
          let repoPath := joinPath root sanitizedName
          match gitClone env pathOrURL repoPath with
          | .error e =>
            (.error (.err ("Failed to clone repository: " ++ gerrText e)),
             [.clonedRepo pathOrURL repoPath])
          | .ok _ => (.ok (repoPath, pathOrURL), [.clonedRepo pathOrURL repoPath])
    match resolved with
    | (.error o, effs) => { model := m, outcome := o, effects := effs }
    | (.ok (repoPath, repoURL), effs) =>
      let newRepo : Repository :=
        { name := name, path := repoPath, typ := repoType, url := repoURL,
          postCreateScript := "" }
      let cfg2 :=
        { m.state.config with repositories := m.state.config.repositories ++ [newRepo] }
      let s2 := { m.state with config := cfg2 }
      match env.saveConfigRes with
      | .error e =>
        { model := { m with state := s2 },
          outcome := .err ("Failed to save config: " ++ gerrText e),
          effects := effs ++ [.savedConfig] }
      | .ok _ =>
        let s3 := { s2 with selectedRepoIndex := (cfg2.repositories.length : Int) - 1 }
        let (s4, effs2) := loadWorktreesS env s3
        { model := { m with state := s4, dialogType := .none },
          outcome := .success ("Repository '" ++ name ++ "' added successfully"),
          effects := effs ++ [.savedConfig] ++ effs2 }

/-- `Model.saveWorktree`: dialog validation, selected repository, adapter
`AddWorktree`, reload, optional post-create script (whose failure leaves the
created worktree in place). -/
def saveWorktreeStep (env : Env) (m : UIModel) : StepResult :=
  let branch := trimSpaceS env.addWorktreeBranch
  if branch = "" then
    { model := m, outcome := .err "Branch name is required", effects := [] }
  else if branch.contains ' ' then
    { model := m, outcome := .err "Branch name cannot contain spaces", effects := [] }
  else
    match getSelectedRepoS m.state with
    | (none, s2) =>
      { model := { m with state := s2 }, outcome := .err "No repository selected", effects := [] }
    | (some repo, s2) =>
      let m2 := { m with state := s2 }
      let isRemote := repo.typ == "remote"
      let r := gitAddWorktree env repo.path m2.state.config.rootDirectory repo.name branch isRemote
      let effs0 : List Effect :=
        match r.cmd with
        | some c => [.ranWorktreeAdd c]
        | none => []
      match r.result with
      | .error e =>
        { model := m2, outcome := .err ("Failed to create worktree: " ++ gerrText e),
          effects := effs0 }
      | .ok _ =>
        match gitListWorktrees env repo.path with
        | .error e =>
          { model := m2, outcome := .err ("Failed to list worktrees: " ++ gerrText e),
            effects := effs0 ++ [.listedWorktrees repo.path] }
        | .ok ws =>
          let m3 := { m2 with state := { m2.state with worktrees := ws } }
          if repo.postCreateScript ≠ "" then
            let newWorktreePath :=
              match ws.find? (fun wt => wt.branch == branch) with
              | some wt => wt.path
              | none => ""
            if newWorktreePath ≠ "" then
              match gitExecScript env repo.postCreateScript repo.path newWorktreePath with
              | .error e =>
                { model := { m3 with dialogType := .none },
                  outcome := .err ("Worktree created but script failed: " ++ gerrText e),
                  effects := effs0 ++ [.listedWorktrees repo.path, .ranScript newWorktreePath] }
              | .ok _ =>
                { model := { m3 with dialogType := .none },
                  outcome := .success "Worktree created successfully",
                  effects := effs0 ++ [.listedWorktrees repo.path, .ranScript newWorktreePath] }
            else
              { model := { m3 with dialogType := .none },
                outcome := .success "Worktree created successfully",
                effects := effs0 ++ [.listedWorktrees repo.path] }
          else
            { model := { m3 with dialogType := .none },
              outcome := .success "Worktree created successfully",
              effects := effs0 ++ [.listedWorktrees repo.path] }

/-- In-place update of `Repositories[i].PostCreateScript`. -/
def setScriptAt : List Repository → Nat → String → List Repository
  | [], _, _ => []
  | r :: rest, 0, sc => { r with postCreateScript := sc } :: rest
  | r :: rest, i + 1, sc => r :: setScriptAt rest i sc

/-- `Model.saveScript`. -/
def saveScriptStep (env : Env) (m : UIModel) : StepResult :=
  match getSelectedRepoS m.state with
  | (none, s2) =>
    { model := { m with state := s2 }, outcome := .err "No repository selected", effects := [] }
  | (some _, s2) =>
    let script := env.scriptText
    let cfg2 :=
      { s2.config with
        repositories := setScriptAt s2.config.repositories s2.selectedRepoIndex.toNat script }
    let s3 := { s2 with config := cfg2 }
    match env.saveConfigRes with
    | .error e =>
      { model := { m with state := s3 },
        outcome := .err ("Failed to save config: " ++ gerrText e),
        effects := [.savedConfig] }
    | .ok _ =>
      { model := { m with state := s3, dialogType := .none },
        outcome := .success "Post-create script saved", effects := [.savedConfig] }

/-- `Model.deleteWorktree`: remove the worktree (abort on failure), delete
its branch (abort on failure), drop its note, save (result ignored), reload
and clamp the worktree cursor, close the dialog. -/
def deleteWorktreeStep (env : Env) (m : UIModel) : StepResult :=
  match getSelectedRepoS m.state with
  | (none, s2) =>
    { model := { m with state := s2 }, outcome := .err "No repository selected", effects := [] }
  | (some repo, s2) =>
    let m2 := { m with state := s2 }
    if m2.state.worktrees.length = 0 ∨
        (m2.state.worktrees.length : Int) ≤ m2.state.selectedWTIndex then
      { model := m2, outcome := .err "No worktree selected", effects := [] }
    else
      let selectedWT := (listGetI m2.state.worktrees m2.state.selectedWTIndex).getD ⟨"", "", ""⟩
      match gitRemoveWorktree env repo.path selectedWT.path with
      | .error e =>
        { model := m2, outcome := .err ("Failed to remove worktree: " ++ gerrText e),
          effects := [.removedWorktree repo.path selectedWT.path] }
      | .ok _ =>
        match gitDeleteBranch env repo.path selectedWT.branch with
        | .error e =>
          { model := m2, outcome := .err ("Failed to delete branch: " ++ gerrText e),
            effects := [.removedWorktree repo.path selectedWT.path,
              .deletedBranch repo.path selectedWT.branch] }
        | .ok _ =>
          let m3 :=
            { m2 with state :=
              { m2.state with config := deleteWorktreeNotes m2.state.config selectedWT.path } }
          let effs := [Effect.removedWorktree repo.path selectedWT.path,
            Effect.deletedBranch repo.path selectedWT.branch, Effect.savedConfig]
          match gitListWorktrees env repo.path with
          | .error e =>
            { model := m3, outcome := .err ("Failed to list worktrees: " ++ gerrText e),
              effects := effs ++ [.listedWorktrees repo.path] }
          | .ok ws =>
            let s3 := { m3.state with worktrees := ws }
            let s4 :=
              if (ws.length : Int) ≤ s3.selectedWTIndex ∧ 0 < ws.length then
                { s3 with selectedWTIndex := (ws.length : Int) - 1 }
              else s3
            { model := { m3 with state := s4, dialogType := .none }, outcome := .none,
              effects := effs ++ [.listedWorktrees repo.path] }

/-- The per-worktree loop of `Model.deleteRepository`: index 0 is skipped;
removal failures are collected and skip the branch step; branch-deletion
failures after a successful removal are swallowed. -/
def removeWorktreesLoop (env : Env) (repoPath : String) :
    Nat → List Worktree → List String × List Effect
  | _, [] => ([], [])
  | i, wt :: rest =>
    if i = 0 then removeWorktreesLoop env repoPath (i + 1) rest
    else
      match gitRemoveWorktree env repoPath wt.path with
      | .error e =>
        let (errs, effs) := removeWorktreesLoop env repoPath (i + 1) rest
        (("Failed to remove worktree '" ++ wt.name ++ "': " ++ gerrText e) :: errs,
         Effect.removedWorktree repoPath wt.path :: effs)
      | .ok _ =>
        let (errs, effs) := removeWorktreesLoop env repoPath (i + 1) rest
        (errs,
         Effect.removedWorktree repoPath wt.path ::
           Effect.deletedBranch repoPath wt.branch :: effs)

/-- `Model.deleteRepository`: list worktrees, remove all non-primary ones
(abort everything if any removal failed), delete the repository directory
(abort unless the error passes `os.IsNotExist` — which no wrapped error
does), drop all collected notes, remove the record, save, clamp the
repository cursor, reload worktrees. -/
def deleteRepositoryStep (env : Env) (m : UIModel) : StepResult :=
  match getSelectedRepoS m.state with
  | (none, s2) =>
    { model := { m with state := s2 }, outcome := .err "No repository selected", effects := [] }
  | (some repo, s2) =>
    let m2 := { m with state := s2 }
    let listed :=
      match gitListWorktrees env repo.path with
      | .error e =>
        if isNotExist e = false then
          (([] : List Worktree), ["Failed to list worktrees: " ++ gerrText e],
           [Effect.listedWorktrees repo.path])
        else (([] : List Worktree), ([] : List String), [Effect.listedWorktrees repo.path])
      | .ok ws =>
        let (errs, effs) := removeWorktreesLoop env repo.path 0 ws
        (ws, errs, Effect.listedWorktrees repo.path :: effs)
    match listed with
    | (worktrees, errs0, effs0) =>
      if errs0 ≠ [] then
        { model := { m2 with dialogType := .none },
          outcome := .err ("Errors during deletion:\n" ++ String.intercalate "\n" errs0 ++
            "\nRepository kept in config."),
          effects := effs0 }
      else
        let finish : List Effect → StepResult := fun effs =>
          let cfg2 := worktrees.foldl (fun cfg wt => deleteWorktreeNotes cfg wt.path)
            m2.state.config
          let repoIndex := m2.state.selectedRepoIndex
          let repos2 := cfg2.repositories.take repoIndex.toNat ++
            cfg2.repositories.drop (repoIndex.toNat + 1)
          let cfg3 := { cfg2 with repositories := repos2 }
          let s3 := { m2.state with config := cfg3 }
          match env.saveConfigRes with
          | .error e =>
            { model := { m2 with state := s3 },
              outcome := .err ("Failed to save config: " ++ gerrText e),
              effects := effs ++ [.savedConfig] }
          | .ok _ =>
            let s4 :=
              if repos2.length = 0 then { s3 with selectedRepoIndex := 0 }
              else if (repos2.length : Int) ≤ s3.selectedRepoIndex then
                { s3 with selectedRepoIndex := (repos2.length : Int) - 1 }
              else s3
            let (s5, effs2) := loadWorktreesS env s4
            { model := { m2 with state := s5, dialogType := .none },
              outcome := .success ("Repository '" ++ repo.name ++ "' deleted successfully"),
              effects := effs ++ [.savedConfig] ++ effs2 }
        match gitDeleteRepository env repo.path with
        | .error e =>
          if isNotExist e = false then
            { model := { m2 with dialogType := .none },
              outcome := .err ("Failed to delete repository: " ++ gerrText e ++
                "\nRepository kept in config."),
              effects := effs0 ++ [.deletedRepoDir repo.path] }
          else finish (effs0 ++ [.deletedRepoDir repo.path])
        | .ok _ => finish (effs0 ++ [.deletedRepoDir repo.path])


/-- The `${...}` substitution of `Model.yankWorktreeCommand`. -/
def yankText (template repoName branch path name : String) : String :=
  ((((template.replace "$\x7brepo_name\x7d" repoName).replace
      "$\x7bbranch_name\x7d" branch).replace
      "$\x7bworktree_path\x7d" path).replace
      "$\x7bworktree_name\x7d" name)

/-- `Model.yankWorktreeCommand`. -/
def yankStep (env : Env) (m : UIModel) : StepResult :=
  match getSelectedRepoS m.state with
  | (none, s2) =>
    { model := { m with state := s2 }, outcome := .err "No repository selected", effects := [] }
  | (some repo, s2) =>
    let m2 := { m with state := s2 }
    if m2.state.worktrees.length = 0 ∨
        (m2.state.worktrees.length : Int) ≤ m2.state.selectedWTIndex then
      { model := m2, outcome := .err "No worktree selected", effects := [] }
    else
      let wt := (listGetI m2.state.worktrees m2.state.selectedWTIndex).getD ⟨"", "", ""⟩
      let template :=
        if m2.state.config.yankTemplate = "" then "$\x7bworktree_path\x7d"
        else m2.state.config.yankTemplate
      let text := yankText template repo.name wt.branch wt.path wt.name
      match env.clipboardRes with
      | .error e =>
        { model := m2, outcome := .err ("Failed to copy: " ++ gerrText e),
          effects := [.yanked text] }
      | .ok _ =>
        { model := m2, outcome := .success "Copied to clipboard", effects := [.yanked text] }

/-- The save-and-exit branch of `Model.handleNotesEditingKeys`
(`esc` / `ctrl+s`): trim the textarea value, store it via
`SetWorktreeNotes`, save the config, leave editing mode. -/
def notesEditingSave (env : Env) (m : UIModel) : StepResult :=
  let notes := trimSpaceS env.notesText
  let cfg2 := setWorktreeNotes m.state.config m.editingWorktreePath notes
  let m2 :=
    { m with
      state := { m.state with config := cfg2 }
      editingNotes := false
      editingWorktreePath := "" }
  match env.saveConfigRes with
  | .error e =>
    { model := m2, outcome := .err ("Failed to save notes: " ++ gerrText e),
      effects := [.savedConfig] }
  | .ok _ => { model := m2, outcome := .success "Notes saved", effects := [.savedConfig] }

/-- The key events `Model.Update` dispatches on (`msg.String()` values);
`other` stands for every other key, which in normal mode does nothing and in
a dialog only feeds the focused text input. -/
inductive Key
  | ctrlC
  | q
  | tab
  | h
  | l
  | up
  | k
  | down
  | j
  | y
  | n
  | s
  | plus
  | minus
  | esc
  | ctrlS
  | other
deriving DecidableEq

/-- An unchanged model with no outcome. -/
def idStep (m : UIModel) : StepResult := { model := m, outcome := .none, effects := [] }

/-- `Model.Update` together with `handleDialogKeys` and
`handleNotesEditingKeys`: one full key-event dispatch. -/
def updateStep (env : Env) (key : Key) (m : UIModel) : StepResult :=
  if m.editingNotes then
    match key with
    | .esc | .ctrlS => notesEditingSave env m
    | _ => idStep m
  else if m.dialogType ≠ DialogType.none then
    match key with
    | .ctrlC => { model := m, outcome := .quit, effects := [] }
    | .esc => { model := { m with dialogType := .none }, outcome := .none, effects := [] }
    | .n =>
      match m.dialogType with
      | .confirmDelete | .confirmDeleteRepo =>
        { model := { m with dialogType := .none }, outcome := .none, effects := [] }
      | _ => idStep m
    | .y =>
      match m.dialogType with
      | .confirmDelete => deleteWorktreeStep env m
      | .confirmDeleteRepo => deleteRepositoryStep env m
      | _ => idStep m
    | .ctrlS =>
      match m.dialogType with
      | .addRepo => saveRepositoryStep env m
      | .addWorktree => saveWorktreeStep env m
      | .editScript => saveScriptStep env m
      | _ => idStep m
    | _ => idStep m
  else
    match key with
    | .ctrlC | .q => { model := m, outcome := .quit, effects := [] }
    | .tab => { model := { m with state := togglePane m.state }, outcome := .none, effects := [] }
    | .h =>
      { model := { m with state := { m.state with activePane := .repos } },
        outcome := .none, effects := [] }
    | .l =>
      { model := { m with state := { m.state with activePane := .worktrees } },
        outcome := .none, effects := [] }
    | .up | .k =>
      if m.state.activePane = .repos then
        let (s2, effs) := loadWorktreesS env (prevRepo m.state)
        { model := { m with state := s2 }, outcome := .none, effects := effs }
      else
        { model := { m with state := prevWorktree m.state }, outcome := .none, effects := [] }
    | .down | .j =>
      if m.state.activePane = .repos then
        let (s2, effs) := loadWorktreesS env (nextRepo m.state)
        { model := { m with state := s2 }, outcome := .none, effects := effs }
      else
        { model := { m with state := nextWorktree m.state }, outcome := .none, effects := [] }
    | .y =>
      if m.state.activePane = .worktrees then
        if 0 < m.state.worktrees.length then
          match getSelectedRepoS m.state with
          | (none, s2) => idStep { m with state := s2 }
          | (some _, s2) => yankStep env { m with state := s2 }
        else idStep m
      else idStep m
    | .n =>
      if m.state.activePane = .worktrees then
        if 0 < m.state.worktrees.length then
          match getSelectedRepoS m.state with
          | (none, s2) => idStep { m with state := s2 }
          | (some _, s2) =>
            let selectedWT := (listGetI s2.worktrees s2.selectedWTIndex).getD ⟨"", "", ""⟩
            { model :=
                { m with
                  state := s2
                  editingNotes := true
                  editingWorktreePath := selectedWT.path }
              outcome := .none
              effects := [] }
        else idStep m
      else idStep m
    | .s =>
      if m.state.activePane = .repos then
        match getSelectedRepoS m.state with
        | (none, s2) => idStep { m with state := s2 }
        | (some _, s2) =>
          { model := { m with state := s2, dialogType := .editScript },
            outcome := .none, effects := [] }
      else idStep m
    | .plus =>
      match m.state.activePane with
      | .repos => { model := { m with dialogType := .addRepo }, outcome := .none, effects := [] }
      | .worktrees =>
        match getSelectedRepoS m.state with
        | (none, s2) => idStep { m with state := s2 }
        | (some repo, s2) =>
          { model := { m with state := s2, dialogType := .addWorktree },
            outcome := .none, effects := [.listedBranches repo.path] }
    | .minus =>
      match m.state.activePane with
      | .repos =>
        if 0 < m.state.config.repositories.length then
          match getSelectedRepoS m.state with
          | (none, s2) => idStep { m with state := s2 }
          | (some _, s2) =>
            { model := { m with state := s2, dialogType := .confirmDeleteRepo },
              outcome := .none, effects := [] }
        else idStep m
      | .worktrees =>
        if 0 < m.state.worktrees.length then
          match getSelectedRepoS m.state with
          | (none, s2) => idStep { m with state := s2 }
          | (some _, s2) =>
            if 0 < s2.selectedWTIndex then
              { model := { m with state := s2, dialogType := .confirmDelete },
                outcome := .none, effects := [] }
            else idStep { m with state := s2 }
        else idStep m
    | _ => idStep m

/-- `ui.NewModel` over `state.New cfg`: fresh cursors, repositories pane,
then an initial `loadWorktrees`. -/
def newModel (env : Env) (cfg : Config) : UIModel :=
  let s : AppState :=
    { config := cfg, selectedRepoIndex := 0, selectedWTIndex := 0,
      activePane := .repos, worktrees := [] }
  let (s2, _) := loadWorktreesS env s
  { state := s2, dialogType := .none, editingNotes := false, editingWorktreePath := "" }

/-- The states of the interaction state machine: everything reachable from
a fresh model by key events, each step using an arbitrary environment. -/
inductive Reachable : UIModel → Prop
  | init (env : Env) (cfg : Config) : Reachable (newModel env cfg)
  | step {m : UIModel} (h : Reachable m) (env : Env) (key : Key) :
      Reachable (updateStep env key m).model


/-! ## Claim C2: delete-repository aborts when a non-primary worktree
removal fails -/

theorem getSelectedRepoS_config (s : AppState) :
    (getSelectedRepoS s).2.config = s.config := by
  unfold getSelectedRepoS
  by_cases h0 : s.config.repositories.length = 0
  · rw [if_pos h0]
  · rw [if_neg h0]
    by_cases hc : (s.config.repositories.length : Int) ≤ s.selectedRepoIndex
    · rw [if_pos hc]
    · rw [if_neg hc]

theorem removeLoop_errs_ne_nil (env : Env) (rp : String) :
    ∀ (ws : List Worktree) (k i : Nat) (wt : Worktree) (e : GErr),
      ws.get? i = some wt → 1 ≤ i + k →
      env.removeWorktreeRes rp wt.path = .error e →
      (removeWorktreesLoop env rp k ws).1 ≠ [] := by
  intro ws
  induction ws with
  | nil => intro k i wt e hget _ _; simp at hget
  | cons wt0 rest ih =>
    intro k i wt e hget hik hfail
    cases i with
    | zero =>
      rw [List.get?_cons_zero] at hget
      cases hget
      have hk : k ≠ 0 := by omega
      unfold removeWorktreesLoop
      rw [if_neg hk]
      unfold gitRemoveWorktree wrapErr
      rw [hfail]
      rcases hlp : removeWorktreesLoop env rp (k + 1) rest with ⟨errs, effs⟩
      simp
    | succ j =>
      rw [List.get?_cons_succ] at hget
      unfold removeWorktreesLoop
      by_cases hk : k = 0
      · rw [if_pos hk]
        exact ih (k + 1) j wt e hget (by omega) hfail
      · rw [if_neg hk]
        cases hres : gitRemoveWorktree env rp wt0.path with
        | error e0 =>
          rcases hlp : removeWorktreesLoop env rp (k + 1) rest with ⟨errs, effs⟩
          simp
        | ok u =>
          rcases hlp : removeWorktreesLoop env rp (k + 1) rest with ⟨errs, effs⟩
          simp only []
          have := ih (k + 1) j wt e hget (by omega) hfail
          rw [hlp] at this
          exact this

theorem removeLoop_effects_shape (env : Env) (rp : String) :
    ∀ (ws : List Worktree) (k : Nat) (ef : Effect),
      ef ∈ (removeWorktreesLoop env rp k ws).2 →
      (∃ p, ef = .removedWorktree rp p) ∨ (∃ b, ef = .deletedBranch rp b) := by
  intro ws
  induction ws with
  | nil => intro k ef hef; simp [removeWorktreesLoop] at hef
  | cons wt0 rest ih =>
    intro k ef hef
    unfold removeWorktreesLoop at hef
    by_cases hk : k = 0
    · rw [if_pos hk] at hef
      exact ih (k + 1) ef hef
    · rw [if_neg hk] at hef
      cases hres : gitRemoveWorktree env rp wt0.path with
      | error e0 =>
        rw [hres] at hef
        rcases hlp : removeWorktreesLoop env rp (k + 1) rest with ⟨errs, effs⟩
        rw [hlp] at hef
        simp only [] at hef
        rcases List.mem_cons.mp hef with rfl | hef
        · exact Or.inl ⟨wt0.path, rfl⟩
        · have := ih (k + 1) ef (by rw [hlp]; exact hef)
          exact this
      | ok u =>
        rw [hres] at hef
        rcases hlp : removeWorktreesLoop env rp (k + 1) rest with ⟨errs, effs⟩
        rw [hlp] at hef
        simp only [] at hef
        rcases List.mem_cons.mp hef with rfl | hef
        · exact Or.inl ⟨wt0.path, rfl⟩
        · rcases List.mem_cons.mp hef with rfl | hef
          · exact Or.inr ⟨wt0.branch, rfl⟩
          · exact ih (k + 1) ef (by rw [hlp]; exact hef)


/-- C2: if removing any non-primary worktree fails, the delete-repository
workflow aborts: the configuration (repository records, notes, stored
script text) is untouched, the repository directory deletion is never
invoked, the configuration is never saved, and the outcome is a single
error message joining the accumulated per-worktree errors. -/
theorem C2_delete_repo_aborts_on_worktree_failure
    (env : Env) (m : UIModel) (repo : Repository) (s2 : AppState)
    (ws : List Worktree) (i : Nat) (wt : Worktree) (e : GErr)
    (hsel : getSelectedRepoS m.state = (some repo, s2))
    (hlist : gitListWorktrees env repo.path = .ok ws)
    (hget : ws.get? i = some wt) (hi : 1 ≤ i)
    (hfail : env.removeWorktreeRes repo.path wt.path = .error e) :
    (deleteRepositoryStep env m).model.state.config = m.state.config ∧
    (deleteRepositoryStep env m).model.dialogType = .none ∧
    (∀ p, Effect.deletedRepoDir p ∉ (deleteRepositoryStep env m).effects) ∧
    Effect.savedConfig ∉ (deleteRepositoryStep env m).effects ∧
    ∃ errs : List String, errs ≠ [] ∧
      (deleteRepositoryStep env m).outcome =
        .err ("Errors during deletion:\n" ++ String.intercalate "\n" errs ++
          "\nRepository kept in config.") := by
  have hcfg : s2.config = m.state.config := by
    have h2 := getSelectedRepoS_config m.state
    rw [hsel] at h2
    exact h2
  have herrs := removeLoop_errs_ne_nil env repo.path ws 0 i wt e hget (by omega) hfail
  rcases hlp : removeWorktreesLoop env repo.path 0 ws with ⟨errs, effs⟩
  rw [hlp] at herrs
  have hstep : deleteRepositoryStep env m =
      { model := { m with state := s2, dialogType := DialogType.none },
        outcome := .err ("Errors during deletion:\n" ++ String.intercalate "\n" errs ++
          "\nRepository kept in config."),
        effects := Effect.listedWorktrees repo.path :: effs } := by
    unfold deleteRepositoryStep
    rw [hsel]
    simp only []
    rw [hlist]
    simp only []
    rw [hlp]
    simp only []
    rw [if_pos herrs]
  rw [hstep]
  refine ⟨hcfg, rfl, ?_, ?_, ⟨errs, herrs, rfl⟩⟩
  · intro p hp
    rcases List.mem_cons.mp hp with hp | hp
    · cases hp
    · rcases removeLoop_effects_shape env repo.path ws 0 _ (by rw [hlp]; exact hp) with
        ⟨q, hq⟩ | ⟨b, hb⟩
      · cases hq
      · cases hb
  · intro hp
    rcases List.mem_cons.mp hp with hp | hp
    · cases hp
    · rcases removeLoop_effects_shape env repo.path ws 0 _ (by rw [hlp]; exact hp) with
        ⟨q, hq⟩ | ⟨b, hb⟩
      · cases hq
      · cases hb

/-- An environment where every external call succeeds (with empty data). -/
def envOK : Env :=
  { addRepoName := "", addRepoPathOrURL := "", addWorktreeBranch := "", scriptText := "",
    notesText := "", statExists := fun _ => true, homeDir := .ok "/home",
    mkdirParentRes := fun _ => .ok (), cloneRes := fun _ _ => .ok (),
    branchExists := fun _ _ => false, remoteBranchExists := fun _ _ => true,
    currentBranchRes := fun _ => .ok "main", runWorktreeAdd := fun _ => .ok (),
    listWorktreesRes := fun _ => .ok [], removeWorktreeRes := fun _ _ => .ok (),
    deleteBranchRes := fun _ _ => .ok (), removeAllRes := fun _ => .ok (),
    saveConfigRes := .ok (), execScriptRes := .ok (), clipboardRes := .ok () }

def repoDemo : Repository :=
  { name := "demo", path := "/w/demo", typ := "local", url := "", postCreateScript := "" }

def wtMain : Worktree := { name := "demo", branch := "main", path := "/w/demo" }

def wtFeat : Worktree := { name := "demo-x", branch := "x", path := "/w/demo-x" }

def mC2 : UIModel :=
  { state :=
      { config :=
          { rootDirectory := "/w", repositories := [repoDemo], yankTemplate := "",
            worktreeNotes := [⟨"/w/demo-x", "note"⟩] },
        selectedRepoIndex := 0, selectedWTIndex := 0, activePane := .repos,
        worktrees := [wtMain, wtFeat] },
    dialogType := .confirmDeleteRepo, editingNotes := false, editingWorktreePath := "" }

def envC2 : Env :=
  { envOK with
    listWorktreesRes := fun _ => .ok [wtMain, wtFeat],
    removeWorktreeRes := fun _ p => if p == "/w/demo-x" then .error (.msg "locked") else .ok () }

/-- Witness for `C2_delete_repo_aborts_on_worktree_failure` at a concrete
model and environment in which removing the second worktree fails. -/
theorem C2_delete_repo_aborts_witness :
    (deleteRepositoryStep envC2 mC2).model.state.config = mC2.state.config ∧
    (deleteRepositoryStep envC2 mC2).model.dialogType = .none ∧
    (∀ p, Effect.deletedRepoDir p ∉ (deleteRepositoryStep envC2 mC2).effects) ∧
    Effect.savedConfig ∉ (deleteRepositoryStep envC2 mC2).effects ∧
    ∃ errs : List String, errs ≠ [] ∧
      (deleteRepositoryStep envC2 mC2).outcome =
        .err ("Errors during deletion:\n" ++ String.intercalate "\n" errs ++
          "\nRepository kept in config.") :=
  C2_delete_repo_aborts_on_worktree_failure envC2 mC2 repoDemo mC2.state
    [wtMain, wtFeat] 1 wtFeat (.msg "locked") (by decide) (by decide) (by decide)
    (by decide) (by decide)


/-! ## Claim C4: delete-worktree step ordering and failure policy -/

def mC4 : UIModel :=
  { state :=
      { config :=
          { rootDirectory := "/w", repositories := [repoDemo], yankTemplate := "",
            worktreeNotes := [⟨"/w/demo-x", "note"⟩] },
        selectedRepoIndex := 0, selectedWTIndex := 1, activePane := .worktrees,
        worktrees := [wtMain, wtFeat] },
    dialogType := .confirmDelete, editingNotes := false, editingWorktreePath := "" }

def envC4 : Env :=
  { envOK with
    deleteBranchRes := fun _ _ => .error (.msg "cannot delete branch"),
    listWorktreesRes := fun _ => .ok [wtMain] }

/-- C4: the claim says a delete-branch failure after a successful removal is
tolerated and note deletion, reload and clamping still run. The code aborts
instead: with a failing branch deletion the workflow returns the branch
error, the note survives, the worktree list is not reloaded, and the trace
stops after the branch-deletion attempt. -/
theorem C4_counterexample_branch_failure_aborts :
    (deleteWorktreeStep envC4 mC4).outcome =
      .err "Failed to delete branch: failed to delete branch: cannot delete branch" ∧
    (deleteWorktreeStep envC4 mC4).model.state.config.worktreeNotes =
      [⟨"/w/demo-x", "note"⟩] ∧
    (deleteWorktreeStep envC4 mC4).model.state.worktrees = [wtMain, wtFeat] ∧
    (deleteWorktreeStep envC4 mC4).effects =
      [.removedWorktree "/w/demo" "/w/demo-x", .deletedBranch "/w/demo" "x"] := by
  refine ⟨?_, ?_, ?_, ?_⟩ <;> decide

/-- C4 (amended): the confirmed delete-worktree workflow runs
remove-worktree, delete-branch, delete-note in that order; a remove failure
aborts with that error before delete-branch is invoked; a delete-branch
failure after a successful removal also aborts — the already-removed
worktree is not re-created, but note deletion, config save, worktree-list
reload and cursor clamping are all skipped; only when both git steps
succeed are the note deleted, the config saved, and the list reloaded with
the cursor clamped. -/
theorem C4_delete_worktree_step_policy
    (env : Env) (m : UIModel) (repo : Repository) (s2 : AppState) (wt : Worktree)
    (hsel : getSelectedRepoS m.state = (some repo, s2))
    (hlen : ¬(s2.worktrees.length = 0 ∨ (s2.worktrees.length : Int) ≤ s2.selectedWTIndex))
    (hwt : listGetI s2.worktrees s2.selectedWTIndex = some wt) :
    (∀ e, gitRemoveWorktree env repo.path wt.path = .error e →
      deleteWorktreeStep env m =
        { model := { m with state := s2 },
          outcome := .err ("Failed to remove worktree: " ++ gerrText e),
          effects := [.removedWorktree repo.path wt.path] }) ∧
    (∀ e, gitRemoveWorktree env repo.path wt.path = .ok () →
      gitDeleteBranch env repo.path wt.branch = .error e →
      deleteWorktreeStep env m =
        { model := { m with state := s2 },
          outcome := .err ("Failed to delete branch: " ++ gerrText e),
          effects := [.removedWorktree repo.path wt.path,
            .deletedBranch repo.path wt.branch] }) ∧
    (gitRemoveWorktree env repo.path wt.path = .ok () →
      gitDeleteBranch env repo.path wt.branch = .ok () →
      (deleteWorktreeStep env m).model.state.config =
        deleteWorktreeNotes s2.config wt.path ∧
      Effect.savedConfig ∈ (deleteWorktreeStep env m).effects ∧
      Effect.listedWorktrees repo.path ∈ (deleteWorktreeStep env m).effects ∧
      (∀ ws, gitListWorktrees env repo.path = .ok ws →
        (deleteWorktreeStep env m).model.state.worktrees = ws ∧
        (deleteWorktreeStep env m).model.dialogType = .none ∧
        (deleteWorktreeStep env m).model.state.selectedWTIndex =
          (if (ws.length : Int) ≤ s2.selectedWTIndex ∧ 0 < ws.length
            then (ws.length : Int) - 1 else s2.selectedWTIndex))) := by
  refine ⟨?_, ?_, ?_⟩
  · intro e he
    unfold deleteWorktreeStep
    rw [hsel]
    simp only []
    rw [if_neg hlen, hwt]
    simp only [Option.getD_some]
    rw [he]
  · intro e hok he
    unfold deleteWorktreeStep
    rw [hsel]
    simp only []
    rw [if_neg hlen, hwt]
    simp only [Option.getD_some]
    rw [hok, he]
  · intro hok hbr
    have hcore : ∀ r, r = deleteWorktreeStep env m →
        r.model.state.config = deleteWorktreeNotes s2.config wt.path ∧
        Effect.savedConfig ∈ r.effects ∧
        Effect.listedWorktrees repo.path ∈ r.effects ∧
        (∀ ws, gitListWorktrees env repo.path = .ok ws →
          r.model.state.worktrees = ws ∧
          r.model.dialogType = .none ∧
          r.model.state.selectedWTIndex =
            (if (ws.length : Int) ≤ s2.selectedWTIndex ∧ 0 < ws.length
              then (ws.length : Int) - 1 else s2.selectedWTIndex)) := by
      intro r hr
      subst hr
      unfold deleteWorktreeStep
      rw [hsel]
      simp only []
      rw [if_neg hlen, hwt]
      simp only [Option.getD_some]
      rw [hok, hbr]
      simp only []
      generalize gitListWorktrees env repo.path = lres
      cases lres with
      | error e =>
        refine ⟨rfl, by simp, by simp, ?_⟩
        intro ws hws
        simp at hws
      | ok ws =>
        simp only []
        refine ⟨?_, by simp, by simp, ?_⟩
        · by_cases hcl : (ws.length : Int) ≤ s2.selectedWTIndex ∧ 0 < ws.length
          · rw [if_pos hcl]
          · rw [if_neg hcl]
        · intro ws2 hws
          cases hws
          by_cases hcl : (ws.length : Int) ≤ s2.selectedWTIndex ∧ 0 < ws.length
          · rw [if_pos hcl]
            simp
            rw [if_pos hcl]
          · rw [if_neg hcl]
            simp
            rw [if_neg hcl]
    exact hcore _ rfl

def envC4w : Env := { envOK with listWorktreesRes := fun _ => .ok [wtMain] }

/-- Witness for `C4_delete_worktree_step_policy` on the all-success path. -/
theorem C4_delete_worktree_step_policy_witness :
    (deleteWorktreeStep envC4w mC4).model.state.config =
      deleteWorktreeNotes mC4.state.config wtFeat.path ∧
    Effect.savedConfig ∈ (deleteWorktreeStep envC4w mC4).effects ∧
    Effect.listedWorktrees repoDemo.path ∈ (deleteWorktreeStep envC4w mC4).effects ∧
    (∀ ws, gitListWorktrees envC4w repoDemo.path = .ok ws →
      (deleteWorktreeStep envC4w mC4).model.state.worktrees = ws ∧
      (deleteWorktreeStep envC4w mC4).model.dialogType = .none ∧
      (deleteWorktreeStep envC4w mC4).model.state.selectedWTIndex =
        (if (ws.length : Int) ≤ mC4.state.selectedWTIndex ∧ 0 < ws.length
          then (ws.length : Int) - 1 else mC4.state.selectedWTIndex)) :=
  (C4_delete_worktree_step_policy envC4w mC4 repoDemo mC4.state wtFeat
    (by decide) (by decide) (by decide)).2.2 (by decide) (by decide)


/-! ## Claim C9: delete-repository success path and the absent-directory bug -/

def mC9 : UIModel :=
  { state :=
      { config :=
          { rootDirectory := "/w", repositories := [repoDemo], yankTemplate := "",
            worktreeNotes := [] },
        selectedRepoIndex := 0, selectedWTIndex := 0, activePane := .repos,
        worktrees := [wtMain] },
    dialogType := .confirmDeleteRepo, editingNotes := false, editingWorktreePath := "" }

def envC9 : Env :=
  { envOK with
    statExists := fun p => if p == "/w/demo" then false else true,
    listWorktreesRes := fun _ => .error .notExist }

def envC9b : Env :=
  { envOK with
    statExists := fun p => if p == "/w/demo" then false else true,
    listWorktreesRes := fun _ => .ok [wtMain] }

/-- C9: deleting a repository whose directory is already absent is supposed
to be treated as success (the record removed, the config saved). The code
aborts instead, in both places where absence can surface: the initial
worktree listing fails with a wrapped error, and `DeleteRepository` returns
a freshly formatted error — neither of which `os.IsNotExist` recognizes —
so the repository is kept and the configuration is never saved. -/
theorem C9_absent_directory_aborts :
    ((deleteRepositoryStep envC9 mC9).model.state.config.repositories = [repoDemo] ∧
      Effect.savedConfig ∉ (deleteRepositoryStep envC9 mC9).effects ∧
      (deleteRepositoryStep envC9 mC9).outcome =
        .err ("Errors during deletion:\nFailed to list worktrees: " ++
          "failed to list worktrees: file does not exist\nRepository kept in config.")) ∧
    ((deleteRepositoryStep envC9b mC9).model.state.config.repositories = [repoDemo] ∧
      Effect.savedConfig ∉ (deleteRepositoryStep envC9b mC9).effects ∧
      (deleteRepositoryStep envC9b mC9).outcome =
        .err ("Failed to delete repository: " ++
          "repository directory does not exist: /w/demo\nRepository kept in config.")) := by
  refine ⟨⟨?_, ?_, ?_⟩, ⟨?_, ?_, ?_⟩⟩ <;> decide


/-! ## Claim C1: cursor bounds after the four workflows -/


/-! ## Cursor invariants (claims C1 and C3) -/

/-- The repository-cursor part of the claimed invariant. -/
def repoCursorOK (s : AppState) : Prop :=
  (s.config.repositories = [] → s.selectedRepoIndex = 0) ∧
  (s.config.repositories ≠ [] →
    0 ≤ s.selectedRepoIndex ∧ s.selectedRepoIndex < (s.config.repositories.length : Int))

/-- The worktree-cursor part of the claimed invariant. -/
def wtCursorOK (s : AppState) : Prop :=
  (s.worktrees = [] → s.selectedWTIndex = 0) ∧
  (s.worktrees ≠ [] →
    0 ≤ s.selectedWTIndex ∧ s.selectedWTIndex < (s.worktrees.length : Int))

/-- The claimed invariant: both cursors are 0 on an empty list and in
bounds otherwise. -/
def cursorOK (s : AppState) : Prop := repoCursorOK s ∧ wtCursorOK s

/-- What actually holds for the worktree cursor: it is non-negative and in
bounds whenever the list is non-empty, but may keep a stale non-zero value
over an empty list. -/
def wtCursorRelaxed (s : AppState) : Prop :=
  0 ≤ s.selectedWTIndex ∧
  (s.worktrees ≠ [] → s.selectedWTIndex < (s.worktrees.length : Int))

/-- The provable post-state guarantee. -/
def cursorOKRes (s : AppState) : Prop := repoCursorOK s ∧ wtCursorRelaxed s

instance (s : AppState) : Decidable (repoCursorOK s) := by unfold repoCursorOK; infer_instance

instance (s : AppState) : Decidable (wtCursorOK s) := by unfold wtCursorOK; infer_instance

instance (s : AppState) : Decidable (cursorOK s) := by unfold cursorOK; infer_instance

instance (s : AppState) : Decidable (wtCursorRelaxed s) := by
  unfold wtCursorRelaxed; infer_instance

instance (s : AppState) : Decidable (cursorOKRes s) := by unfold cursorOKRes; infer_instance

theorem cursorOK_to_res {s : AppState} (h : cursorOK s) : cursorOKRes s := by
  rcases h with ⟨hr, hw0, hw1⟩
  refine ⟨hr, ?_, fun hne => (hw1 hne).2⟩
  by_cases hne : s.worktrees = []
  · rw [hw0 hne]
  · exact (hw1 hne).1

theorem wrapErr_ok_iff {α : Type} {pre : String} {x : Except GErr α} {a : α} :
    wrapErr pre x = .ok a ↔ x = .ok a := by
  cases x with
  | ok b => simp [wrapErr]
  | error e => simp [wrapErr]

theorem listGetI_some {α : Type} {l : List α} {i : Int}
    (h0 : 0 ≤ i) (h1 : i < (l.length : Int)) : ∃ a, listGetI l i = some a := by
  unfold listGetI
  rw [if_pos h0]
  have hlt : i.toNat < l.length := by omega
  rcases List.get?_eq_get (l := l) hlt with hg
  exact ⟨l.get ⟨i.toNat, hlt⟩, hg⟩

theorem getSelectedRepoS_snd_fields (s : AppState) :
    (getSelectedRepoS s).2.config = s.config ∧
    (getSelectedRepoS s).2.worktrees = s.worktrees ∧
    (getSelectedRepoS s).2.selectedWTIndex = s.selectedWTIndex ∧
    (getSelectedRepoS s).2.activePane = s.activePane ∧
    (0 ≤ s.selectedRepoIndex → 0 ≤ (getSelectedRepoS s).2.selectedRepoIndex) := by
  unfold getSelectedRepoS
  by_cases h0 : s.config.repositories.length = 0
  · rw [if_pos h0]
    exact ⟨rfl, rfl, rfl, rfl, fun h => h⟩
  · rw [if_neg h0]
    by_cases hc : (s.config.repositories.length : Int) ≤ s.selectedRepoIndex
    · rw [if_pos hc]
      exact ⟨rfl, rfl, rfl, rfl, fun _ => by simp only []; omega⟩
    · rw [if_neg hc]
      exact ⟨rfl, rfl, rfl, rfl, fun h => h⟩

theorem getSelectedRepoS_eq_self {s : AppState} (h : repoCursorOK s) :
    (getSelectedRepoS s).2 = s := by
  unfold getSelectedRepoS
  by_cases h0 : s.config.repositories.length = 0
  · rw [if_pos h0]
  · rw [if_neg h0]
    have hne : s.config.repositories ≠ [] := by
      intro hnil; rw [hnil] at h0; exact h0 rfl
    rw [if_neg (by have := (h.2 hne).2; omega)]

theorem getSelectedRepoS_fst_some {s : AppState} (h : repoCursorOK s)
    (hne : s.config.repositories ≠ []) :
    ∃ repo, getSelectedRepoS s = (some repo, s) := by
  have hidx := h.2 hne
  rcases listGetI_some hidx.1 hidx.2 with ⟨repo, hrepo⟩
  refine ⟨repo, ?_⟩
  unfold getSelectedRepoS
  rw [if_neg (fun h0 => hne (List.length_eq_zero.mp h0))]
  rw [if_neg (by have := hidx.2; omega)]
  show (listGetI s.config.repositories s.selectedRepoIndex, s) = (some repo, s)
  rw [hrepo]

theorem loadWorktreesS_spec (env : Env) (s : AppState) :
    (loadWorktreesS env s).1.config = s.config ∧
    (loadWorktreesS env s).1.selectedRepoIndex = (getSelectedRepoS s).2.selectedRepoIndex ∧
    (loadWorktreesS env s).1.activePane = s.activePane ∧
    ((loadWorktreesS env s).1.worktrees = [] ∧
      (loadWorktreesS env s).1.selectedWTIndex = s.selectedWTIndex ∨
     (loadWorktreesS env s).1.selectedWTIndex = 0) := by
  have hf := getSelectedRepoS_snd_fields s
  unfold loadWorktreesS
  rcases hsel : getSelectedRepoS s with ⟨o, s2⟩
  rw [hsel] at hf
  cases o with
  | none =>
    exact ⟨hf.1, by trivial, hf.2.2.2.1, Or.inl ⟨by trivial, hf.2.2.1⟩⟩
  | some repo =>
    simp only []
    by_cases hst : env.statExists repo.path = false
    · rw [if_pos hst]
      exact ⟨hf.1, by trivial, hf.2.2.2.1, Or.inl ⟨by trivial, hf.2.2.1⟩⟩
    · rw [if_neg hst]
      generalize gitListWorktrees env repo.path = lres
      cases lres with
      | error e =>
        exact ⟨hf.1, by trivial, hf.2.2.2.1, Or.inl ⟨by trivial, hf.2.2.1⟩⟩
      | ok ws =>
        exact ⟨hf.1, by trivial, hf.2.2.2.1, Or.inr (by trivial)⟩


theorem repoCursorOK_of_eq {s t : AppState}
    (hc : t.config.repositories = s.config.repositories)
    (hi : t.selectedRepoIndex = s.selectedRepoIndex)
    (h : repoCursorOK s) : repoCursorOK t := by
  unfold repoCursorOK at h ⊢
  rw [hc, hi]
  exact h

theorem wtCursorRelaxed_of_eq {s t : AppState}
    (hw : t.worktrees = s.worktrees) (hi : t.selectedWTIndex = s.selectedWTIndex)
    (h : wtCursorRelaxed s) : wtCursorRelaxed t := by
  unfold wtCursorRelaxed at h ⊢
  rw [hw, hi]
  exact h

theorem foldl_deleteNotes_repositories (ws : List Worktree) (c : Config) :
    (ws.foldl (fun cfg wt => deleteWorktreeNotes cfg wt.path) c).repositories =
      c.repositories := by
  induction ws generalizing c with
  | nil => rfl
  | cons wt rest ih => rw [List.foldl_cons, ih]; rfl

theorem cursorOKRes_load (env : Env) (s s4 : AppState) (effs : List Effect)
    (heq : loadWorktreesS env s = (s4, effs))
    (h : repoCursorOK s) (h0 : 0 ≤ s.selectedWTIndex) : cursorOKRes s4 := by
  rcases loadWorktreesS_spec env s with ⟨hc, hi, _, hd⟩
  have hsnd := getSelectedRepoS_eq_self h
  rw [hsnd] at hi
  rw [heq] at hc hi hd
  constructor
  · exact repoCursorOK_of_eq (by rw [hc]) hi h
  · rcases hd with ⟨hemp, hsame⟩ | hzero
    · exact ⟨by rw [hsame]; exact h0, fun hne => absurd hemp hne⟩
    · refine ⟨by rw [hzero], fun hne => ?_⟩
      rw [hzero]
      have hp := List.length_pos.mpr hne
      omega

theorem deleteWorktreeStep_cursor (env : Env) (m : UIModel) (h : cursorOK m.state) :
    cursorOKRes (deleteWorktreeStep env m).model.state := by
  have hres := cursorOK_to_res h
  unfold deleteWorktreeStep
  rcases hsel : getSelectedRepoS m.state with ⟨o, s2⟩
  have hs2 : s2 = m.state := by
    have he := getSelectedRepoS_eq_self h.1
    rw [hsel] at he
    exact he
  subst hs2
  cases o with
  | none => exact hres
  | some repo =>
    simp only []
    by_cases hlen : m.state.worktrees.length = 0 ∨
        (m.state.worktrees.length : Int) ≤ m.state.selectedWTIndex
    · rw [if_pos hlen]
      exact hres
    · rw [if_neg hlen]
      have hne0 : m.state.worktrees ≠ [] := by
        intro hnil
        exact hlen (Or.inl (by rw [hnil]; rfl))
      have hidx := h.2.2 hne0
      rcases listGetI_some hidx.1 hidx.2 with ⟨wt, hwt⟩
      rw [hwt]
      simp only [Option.getD_some]
      generalize gitRemoveWorktree env repo.path wt.path = rres
      cases rres with
      | error e => exact hres
      | ok u =>
        generalize gitDeleteBranch env repo.path wt.branch = bres
        cases bres with
        | error e => exact hres
        | ok u2 =>
          simp only []
          generalize gitListWorktrees env repo.path = lres
          cases lres with
          | error e =>
            exact ⟨repoCursorOK_of_eq rfl rfl h.1, wtCursorRelaxed_of_eq rfl rfl hres.2⟩
          | ok ws =>
            simp only []
            by_cases hcl : (ws.length : Int) ≤ m.state.selectedWTIndex ∧ 0 < ws.length
            · rw [if_pos hcl]
              refine ⟨repoCursorOK_of_eq rfl rfl h.1, ?_, fun hne => ?_⟩
              · show (0 : Int) ≤ (ws.length : Int) - 1
                have hp := hcl.2
                omega
              · show (ws.length : Int) - 1 < (ws.length : Int)
                have hp := hcl.2
                omega
            · rw [if_neg hcl]
              refine ⟨repoCursorOK_of_eq rfl rfl h.1, hres.2.1, fun hne => ?_⟩
              show m.state.selectedWTIndex < (ws.length : Int)
              have hp : 0 < ws.length := List.length_pos.mpr hne
              by_cases hle : (ws.length : Int) ≤ m.state.selectedWTIndex
              · exact absurd ⟨hle, hp⟩ hcl
              · omega


theorem saveWorktreeStep_cursor (env : Env) (m : UIModel) (h : cursorOK m.state)
    (hlen : ∀ p ws, env.listWorktreesRes p = .ok ws →
      m.state.worktrees.length ≤ ws.length) :
    cursorOKRes (saveWorktreeStep env m).model.state := by
  have hres := cursorOK_to_res h
  unfold saveWorktreeStep
  simp only []
  by_cases h1 : trimSpaceS env.addWorktreeBranch = ""
  · rw [if_pos h1]
    exact hres
  · rw [if_neg h1]
    by_cases h2 : (trimSpaceS env.addWorktreeBranch).contains ' ' = true
    · rw [if_pos h2]
      exact hres
    · rw [if_neg h2]
      rcases hsel : getSelectedRepoS m.state with ⟨o, s2⟩
      have hs2 : s2 = m.state := by
        have he := getSelectedRepoS_eq_self h.1
        rw [hsel] at he
        exact he
      subst hs2
      cases o with
      | none => exact hres
      | some repo =>
        simp only []
        generalize (gitAddWorktree env repo.path m.state.config.rootDirectory repo.name
          (trimSpaceS env.addWorktreeBranch) (repo.typ == "remote")).result = rres
        cases rres with
        | error e => exact hres
        | ok u =>
          simp only []
          generalize hls : gitListWorktrees env repo.path = lres
          cases lres with
          | error e => exact hres
          | ok ws =>
            simp only []
            have hraw : env.listWorktreesRes repo.path = .ok ws := by
              unfold gitListWorktrees at hls
              exact wrapErr_ok_iff.mp hls
            have hl2 := hlen repo.path ws hraw
            have hm3 : cursorOKRes ({ m.state with worktrees := ws } : AppState) := by
              refine ⟨repoCursorOK_of_eq rfl rfl h.1, hres.2.1, fun hne => ?_⟩
              show m.state.selectedWTIndex < (ws.length : Int)
              have hne2 : ws ≠ [] := hne
              have hp : 0 < ws.length := List.length_pos.mpr hne2
              by_cases hc0 : m.state.worktrees = []
              · have h0 : m.state.selectedWTIndex = 0 := h.2.1 hc0
                omega
              · have hb := h.2.2 hc0
                omega
            by_cases hscript : repo.postCreateScript ≠ ""
            · rw [if_pos hscript]
              generalize ws.find?
                (fun wt => wt.branch == trimSpaceS env.addWorktreeBranch) = fres
              cases fres with
              | none =>
                simp only []
                by_cases hp2 : ("" : String) ≠ ""
                · rw [if_pos hp2]
                  generalize gitExecScript env repo.postCreateScript repo.path "" = eres
                  cases eres with
                  | error e => exact hm3
                  | ok u2 => exact hm3
                · rw [if_neg hp2]
                  exact hm3
              | some wt2 =>
                simp only []
                by_cases hp2 : wt2.path ≠ ""
                · rw [if_pos hp2]
                  generalize gitExecScript env repo.postCreateScript repo.path wt2.path = eres
                  cases eres with
                  | error e => exact hm3
                  | ok u2 => exact hm3
                · rw [if_neg hp2]
                  exact hm3
            · rw [if_neg hscript]
              exact hm3


theorem saveRepoTail_cursor (env : Env) (m : UIModel) (h : cursorOK m.state)
    (typ : String) (resolved : Except Outcome (String × String) × List Effect) :
    cursorOKRes
      (UIModel.state (StepResult.model
        (match resolved with
        | (.error o, effs) => ({ model := m, outcome := o, effects := effs } : StepResult)
        | (.ok (repoPath, repoURL), effs) =>
          match env.saveConfigRes with
          | .error e =>
            { model := { m with state := { m.state with config :=
                { m.state.config with repositories := m.state.config.repositories ++
                  [({
                    name := trimSpaceS env.addRepoName
                    path := repoPath
                    typ := typ
                    url := repoURL
                    postCreateScript := "" } : Repository)] } } },
              outcome := .err ("Failed to save config: " ++ gerrText e),
              effects := effs ++ [.savedConfig] }
          | .ok _ =>
            match loadWorktreesS env { m.state with
                config := { m.state.config with repositories := m.state.config.repositories ++
                  [({
                    name := trimSpaceS env.addRepoName
                    path := repoPath
                    typ := typ
                    url := repoURL
                    postCreateScript := "" } : Repository)] },
                selectedRepoIndex := ((m.state.config.repositories ++
                  [({
                    name := trimSpaceS env.addRepoName
                    path := repoPath
                    typ := typ
                    url := repoURL
                    postCreateScript := "" } : Repository)]).length : Int) - 1 } with
            | (s4, effs2) =>
              { model := { m with state := s4, dialogType := .none },
                outcome := .success ("Repository '" ++ trimSpaceS env.addRepoName ++
                  "' added successfully"),
                effects := effs ++ [.savedConfig] ++ effs2 }))) := by
  have hres := cursorOK_to_res h
  rcases resolved with ⟨eo, effs⟩
  cases eo with
  | error o => exact hres
  | ok p =>
    rcases p with ⟨repoPath, repoURL⟩
    simp only []
    generalize hl2 : m.state.config.repositories ++
      [({ name := trimSpaceS env.addRepoName, path := repoPath, typ := typ,
          url := repoURL, postCreateScript := "" } : Repository)] = newRepos
    have hlen2 : newRepos.length = m.state.config.repositories.length + 1 := by
      rw [← hl2, List.length_append]
      rfl
    generalize env.saveConfigRes = sres
    cases sres with
    | error e =>
      try simp only []
      refine ⟨⟨fun hnil => ?_, fun hne2 => ?_⟩, hres.2.1, fun hne => ?_⟩
      · exfalso
        have hn : newRepos = [] := hnil
        have hc := congrArg List.length hn
        rw [hlen2] at hc
        simp at hc
      · show 0 ≤ m.state.selectedRepoIndex ∧
          m.state.selectedRepoIndex < (newRepos.length : Int)
        rw [hlen2]
        by_cases hc0 : m.state.config.repositories = []
        · have h0 := h.1.1 hc0
          rw [h0, hc0]
          constructor <;> simp
        · have hb := h.1.2 hc0
          push_cast
          exact ⟨hb.1, by have := hb.2; omega⟩
      · show m.state.selectedWTIndex < (m.state.worktrees.length : Int)
        have hne3 : m.state.worktrees ≠ [] := hne
        exact (h.2.2 hne3).2
    | ok u =>
      try simp only []
      rcases hload : loadWorktreesS env { m.state with
          config := { m.state.config with repositories := newRepos },
          selectedRepoIndex := (newRepos.length : Int) - 1 } with ⟨s4, effs2⟩
      try simp only []
      refine cursorOKRes_load env _ s4 effs2 hload ⟨fun hnil => ?_, fun hne2 => ?_⟩ ?_
      · exfalso
        have hn : newRepos = [] := hnil
        have hc := congrArg List.length hn
        rw [hlen2] at hc
        simp at hc
      · show 0 ≤ (newRepos.length : Int) - 1 ∧
          (newRepos.length : Int) - 1 < (newRepos.length : Int)
        rw [hlen2]
        push_cast
        omega
      · show 0 ≤ m.state.selectedWTIndex
        exact hres.2.1

set_option maxHeartbeats 4000000 in
theorem saveRepositoryStep_cursor (env : Env) (m : UIModel) (h : cursorOK m.state) :
    cursorOKRes (saveRepositoryStep env m).model.state := by
  have hres := cursorOK_to_res h
  unfold saveRepositoryStep
  by_cases h1 : trimSpaceS env.addRepoName = ""
  · rw [if_pos h1]
    exact hres
  · rw [if_neg h1]
    by_cases h2 : trimSpaceS env.addRepoPathOrURL = ""
    · rw [if_pos h2]
      exact hres
    · rw [if_neg h2]
      by_cases h3 : m.state.config.repositories.any
          (fun r => r.name == trimSpaceS env.addRepoName) = true
      · rw [if_pos h3]
        exact hres
      · rw [if_neg h3]
        generalize inferRepoType (trimSpaceS env.addRepoPathOrURL) = rt
        exact saveRepoTail_cursor env m h rt _


theorem deleteRepoFinish_cursor (env : Env) (m : UIModel) (rn : String)
    (W : List Worktree) (effs : List Effect)
    (h : cursorOK m.state) (hsave : env.saveConfigRes = .ok ())
    (hne : m.state.config.repositories ≠ []) :
    cursorOKRes (UIModel.state (StepResult.model (
      let cfg2 := W.foldl (fun cfg wt => deleteWorktreeNotes cfg wt.path) m.state.config
      let repos2 := cfg2.repositories.take m.state.selectedRepoIndex.toNat ++
        cfg2.repositories.drop (m.state.selectedRepoIndex.toNat + 1)
      let cfg3 := { cfg2 with repositories := repos2 }
      let s3 := { m.state with config := cfg3 }
      match env.saveConfigRes with
      | .error e =>
        { model := { m with state := s3 },
          outcome := .err ("Failed to save config: " ++ gerrText e),
          effects := effs ++ [.savedConfig] }
      | .ok _ =>
        let s4 :=
          if repos2.length = 0 then { s3 with selectedRepoIndex := 0 }
          else if (repos2.length : Int) ≤ s3.selectedRepoIndex then
            { s3 with selectedRepoIndex := (repos2.length : Int) - 1 }
          else s3
        let (s5, effs2) := loadWorktreesS env s4
        { model := { m with state := s5, dialogType := .none },
          outcome := .success ("Repository '" ++ rn ++ "' deleted successfully"),
          effects := effs ++ [.savedConfig] ++ effs2 }))) := by
  have hres := cursorOK_to_res h
  rw [hsave]
  simp only []
  generalize hcfg : W.foldl (fun cfg wt => deleteWorktreeNotes cfg wt.path)
    m.state.config = cfg2
  have hreps : cfg2.repositories = m.state.config.repositories := by
    rw [← hcfg]
    exact foldl_deleteNotes_repositories W m.state.config
  generalize hr2 : cfg2.repositories.take m.state.selectedRepoIndex.toNat ++
    cfg2.repositories.drop (m.state.selectedRepoIndex.toNat + 1) = repos2
  have hidx := h.1.2 hne
  have hl2 : repos2.length = m.state.config.repositories.length - 1 := by
    rw [← hr2, List.length_append, List.length_take, List.length_drop, hreps]
    have ht : m.state.selectedRepoIndex.toNat < m.state.config.repositories.length := by
      have := hidx.1
      have := hidx.2
      omega
    omega
  by_cases h0 : repos2.length = 0
  · rw [if_pos h0]
    rcases hload : loadWorktreesS env { m.state with
        config := { cfg2 with repositories := repos2 },
        selectedRepoIndex := 0 } with ⟨s5, effs2⟩
    try simp only []
    refine cursorOKRes_load env _ s5 effs2 hload ⟨fun _ => rfl, fun hne2 => ?_⟩ ?_
    · exact absurd (List.length_eq_zero.mp h0) hne2
    · show 0 ≤ m.state.selectedWTIndex
      exact hres.2.1
  · rw [if_neg h0]
    by_cases hle : (repos2.length : Int) ≤ m.state.selectedRepoIndex
    · rw [if_pos hle]
      rcases hload : loadWorktreesS env { m.state with
          config := { cfg2 with repositories := repos2 },
          selectedRepoIndex := (repos2.length : Int) - 1 } with ⟨s5, effs2⟩
      try simp only []
      refine cursorOKRes_load env _ s5 effs2 hload ⟨fun hnil => ?_, fun hne2 => ?_⟩ ?_
      · exact absurd (congrArg List.length hnil) h0
      · show 0 ≤ (repos2.length : Int) - 1 ∧
          (repos2.length : Int) - 1 < (repos2.length : Int)
        constructor
        · omega
        · omega
      · show 0 ≤ m.state.selectedWTIndex
        exact hres.2.1
    · rw [if_neg hle]
      rcases hload : loadWorktreesS env { m.state with
          config := { cfg2 with repositories := repos2 } } with ⟨s5, effs2⟩
      try simp only []
      refine cursorOKRes_load env _ s5 effs2 hload ⟨fun hnil => ?_, fun hne2 => ?_⟩ ?_
      · exact absurd (congrArg List.length hnil) h0
      · show 0 ≤ m.state.selectedRepoIndex ∧
          m.state.selectedRepoIndex < (repos2.length : Int)
        exact ⟨hidx.1, by omega⟩
      · show 0 ≤ m.state.selectedWTIndex
        exact hres.2.1

set_option maxHeartbeats 1000000 in
theorem deleteRepositoryStep_cursor (env : Env) (m : UIModel) (h : cursorOK m.state)
    (hsave : env.saveConfigRes = .ok ()) :
    cursorOKRes (deleteRepositoryStep env m).model.state := by
  have hres := cursorOK_to_res h
  unfold deleteRepositoryStep
  rcases hsel : getSelectedRepoS m.state with ⟨o, s2⟩
  have hs2 : s2 = m.state := by
    have he := getSelectedRepoS_eq_self h.1
    rw [hsel] at he
    exact he
  subst hs2
  cases o with
  | none => exact hres
  | some repo =>
    have hne : m.state.config.repositories ≠ [] := by
      intro hnil
      unfold getSelectedRepoS at hsel
      rw [if_pos (by rw [hnil]; rfl)] at hsel
      simp at hsel
    simp only []
    generalize hls : gitListWorktrees env repo.path = lres
    cases lres with
    | error e =>
      simp only []
      by_cases hnx : isNotExist e = false
      · rw [if_pos hnx]
        simp only []
        rw [if_pos (List.cons_ne_nil _ _)]
        exact hres
      · rw [if_neg hnx]
        simp only []
        rw [if_neg (by simp)]
        generalize gitDeleteRepository env repo.path = dres
        cases dres with
        | error e2 =>
          simp only []
          by_cases hnx2 : isNotExist e2 = false
          · rw [if_pos hnx2]
            exact hres
          · rw [if_neg hnx2]
            exact deleteRepoFinish_cursor env m _ _ _ h hsave hne
        | ok u =>
          exact deleteRepoFinish_cursor env m _ _ _ h hsave hne
    | ok ws =>
      simp only []
      generalize hpr : removeWorktreesLoop env repo.path 0 ws = pr
      rcases pr with ⟨errs, effs⟩
      simp only []
      by_cases herr : errs = []
      · subst herr
        rw [if_neg (by simp)]
        generalize gitDeleteRepository env repo.path = dres
        cases dres with
        | error e2 =>
          simp only []
          by_cases hnx2 : isNotExist e2 = false
          · rw [if_pos hnx2]
            exact hres
          · rw [if_neg hnx2]
            exact deleteRepoFinish_cursor env m _ _ _ h hsave hne
        | ok u =>
          exact deleteRepoFinish_cursor env m _ _ _ h hsave hne
      · rw [if_pos herr]
        exact hres


def wtW2 : Worktree := { name := "demo-y", branch := "y", path := "/w/demo-y" }

def mC1 : UIModel :=
  { state :=
      { config :=
          { rootDirectory := "/w", repositories := [repoDemo], yankTemplate := "",
            worktreeNotes := [] },
        selectedRepoIndex := 0, selectedWTIndex := 2, activePane := .worktrees,
        worktrees := [wtMain, wtFeat, wtW2] },
    dialogType := .confirmDeleteRepo, editingNotes := false, editingWorktreePath := "" }

def envC1 : Env :=
  { envOK with listWorktreesRes := fun _ => .ok [wtMain, wtFeat, wtW2] }

/-- C1 counterexample: deleting the only repository while the worktree
cursor points at index 2 succeeds, empties the worktree list, but leaves
`selectedWTIndex = 2`, so the claimed "0 on an empty list" half of the
invariant is false after a delete-repository workflow. -/
theorem C1_counterexample_stale_wt_cursor :
    cursorOK mC1.state ∧
    (deleteRepositoryStep envC1 mC1).outcome =
      .success "Repository 'demo' deleted successfully" ∧
    (deleteRepositoryStep envC1 mC1).model.state.worktrees = [] ∧
    (deleteRepositoryStep envC1 mC1).model.state.selectedWTIndex = 2 ∧
    ¬ wtCursorOK (deleteRepositoryStep envC1 mC1).model.state := by decide

/-- C1 (corrected): starting from a state satisfying the claimed two-cursor
invariant `cursorOK`, each of the four workflows re-establishes the
repository-cursor half in full and the worktree-cursor half in the relaxed
form `cursorOKRes`: the worktree cursor stays non-negative and in bounds
whenever the list is non-empty, but may keep a stale value over an emptied
list. Add-worktree additionally assumes the reload cannot shrink the list
below its current length, and delete-repository that saving the
configuration succeeds (its save-failure path returns before the
repository index is adjusted). -/
theorem C1_cursor_bounds_after_workflows (env : Env) (m : UIModel)
    (h : cursorOK m.state) :
    cursorOKRes (saveRepositoryStep env m).model.state ∧
    ((∀ p ws, env.listWorktreesRes p = .ok ws → m.state.worktrees.length ≤ ws.length) →
      cursorOKRes (saveWorktreeStep env m).model.state) ∧
    cursorOKRes (deleteWorktreeStep env m).model.state ∧
    (env.saveConfigRes = .ok () → cursorOKRes (deleteRepositoryStep env m).model.state) :=
  ⟨saveRepositoryStep_cursor env m h,
   fun hlen => saveWorktreeStep_cursor env m h hlen,
   deleteWorktreeStep_cursor env m h,
   fun hsave => deleteRepositoryStep_cursor env m h hsave⟩

/-- Witness for `C1_cursor_bounds_after_workflows` at the concrete state and
environment of the counterexample: the relaxed post-condition holds there. -/
theorem C1_cursor_bounds_after_workflows_witness :
    cursorOK mC1.state ∧
    cursorOKRes (deleteRepositoryStep envC1 mC1).model.state :=
  ⟨by decide, (C1_cursor_bounds_after_workflows envC1 mC1 (by decide)).2.2.2 (by decide)⟩


/-! ## Claim C3: the confirm-delete dialog protects the primary worktree -/

/-- The reachability invariant for C3: both cursors are non-negative, and
whenever the confirm-delete-worktree dialog is open the worktree cursor is
at least 1. -/
def dialogWTInv (m : UIModel) : Prop :=
  0 ≤ m.state.selectedWTIndex ∧ 0 ≤ m.state.selectedRepoIndex ∧
  (m.dialogType = .confirmDelete → 1 ≤ m.state.selectedWTIndex)

theorem loadWorktreesS_nonneg (env : Env) (s : AppState)
    (h0 : 0 ≤ s.selectedWTIndex) (h1 : 0 ≤ s.selectedRepoIndex) :
    0 ≤ (loadWorktreesS env s).1.selectedWTIndex ∧
    0 ≤ (loadWorktreesS env s).1.selectedRepoIndex := by
  rcases loadWorktreesS_spec env s with ⟨_, hi, _, hd⟩
  have hr := (getSelectedRepoS_snd_fields s).2.2.2.2 h1
  constructor
  · rcases hd with ⟨_, hsame⟩ | hzero
    · rw [hsame]; exact h0
    · rw [hzero]
  · rw [hi]; exact hr

theorem nextRepo_nonneg (s : AppState) (h0 : 0 ≤ s.selectedWTIndex)
    (h1 : 0 ≤ s.selectedRepoIndex) :
    0 ≤ (nextRepo s).selectedWTIndex ∧ 0 ≤ (nextRepo s).selectedRepoIndex := by
  unfold nextRepo
  by_cases hl : 0 < s.config.repositories.length
  · rw [if_pos hl]
    refine ⟨le_refl 0, ?_⟩
    show 0 ≤ (s.selectedRepoIndex + 1) % (s.config.repositories.length : Int)
    exact Int.emod_nonneg _ (by omega)
  · rw [if_neg hl]
    exact ⟨h0, h1⟩

theorem prevRepo_nonneg (s : AppState) (h0 : 0 ≤ s.selectedWTIndex)
    (h1 : 0 ≤ s.selectedRepoIndex) :
    0 ≤ (prevRepo s).selectedWTIndex ∧ 0 ≤ (prevRepo s).selectedRepoIndex := by
  unfold prevRepo
  by_cases hl : 0 < s.config.repositories.length
  · rw [if_pos hl]
    refine ⟨le_refl 0, ?_⟩
    show 0 ≤ if s.selectedRepoIndex - 1 < 0 then (s.config.repositories.length : Int) - 1
      else s.selectedRepoIndex - 1
    by_cases hi : s.selectedRepoIndex - 1 < 0
    · rw [if_pos hi]; omega
    · rw [if_neg hi]; omega
  · rw [if_neg hl]
    exact ⟨h0, h1⟩

theorem nextWorktree_nonneg (s : AppState) (h0 : 0 ≤ s.selectedWTIndex)
    (h1 : 0 ≤ s.selectedRepoIndex) :
    0 ≤ (nextWorktree s).selectedWTIndex ∧ 0 ≤ (nextWorktree s).selectedRepoIndex := by
  unfold nextWorktree
  by_cases hl : 0 < s.worktrees.length
  · rw [if_pos hl]
    refine ⟨?_, h1⟩
    show 0 ≤ (s.selectedWTIndex + 1) % (s.worktrees.length : Int)
    exact Int.emod_nonneg _ (by omega)
  · rw [if_neg hl]
    exact ⟨h0, h1⟩

theorem prevWorktree_nonneg (s : AppState) (h0 : 0 ≤ s.selectedWTIndex)
    (h1 : 0 ≤ s.selectedRepoIndex) :
    0 ≤ (prevWorktree s).selectedWTIndex ∧ 0 ≤ (prevWorktree s).selectedRepoIndex := by
  unfold prevWorktree
  by_cases hl : 0 < s.worktrees.length
  · rw [if_pos hl]
    refine ⟨?_, h1⟩
    show 0 ≤ if s.selectedWTIndex - 1 < 0 then (s.worktrees.length : Int) - 1
      else s.selectedWTIndex - 1
    by_cases hi : s.selectedWTIndex - 1 < 0
    · rw [if_pos hi]; omega
    · rw [if_neg hi]; omega
  · rw [if_neg hl]
    exact ⟨h0, h1⟩

theorem notesEditingSave_inv (env : Env) (m : UIModel)
    (h0 : 0 ≤ m.state.selectedWTIndex) (h1 : 0 ≤ m.state.selectedRepoIndex)
    (hd : m.dialogType = .confirmDelete → 1 ≤ m.state.selectedWTIndex) :
    dialogWTInv (notesEditingSave env m).model := by
  unfold notesEditingSave
  generalize env.saveConfigRes = sres
  cases sres with
  | error e => exact ⟨h0, h1, hd⟩
  | ok u => exact ⟨h0, h1, hd⟩

theorem saveScriptStep_inv (env : Env) (m : UIModel)
    (h0 : 0 ≤ m.state.selectedWTIndex) (h1 : 0 ≤ m.state.selectedRepoIndex)
    (hd : m.dialogType = .confirmDelete → 1 ≤ m.state.selectedWTIndex) :
    dialogWTInv (saveScriptStep env m).model := by
  unfold saveScriptStep
  rcases hsel : getSelectedRepoS m.state with ⟨o, s2⟩
  have hf := getSelectedRepoS_snd_fields m.state
  rw [hsel] at hf
  try simp only [] at hf
  cases o with
  | none =>
    exact ⟨by rw [hf.2.2.1]; exact h0, hf.2.2.2.2 h1, fun hc => by rw [hf.2.2.1]; exact hd hc⟩
  | some repo =>
    simp only []
    generalize env.saveConfigRes = sres
    cases sres with
    | error e =>
      exact ⟨by show 0 ≤ s2.selectedWTIndex; rw [hf.2.2.1]; exact h0,
        by show 0 ≤ s2.selectedRepoIndex; exact hf.2.2.2.2 h1,
        fun hc => by show 1 ≤ s2.selectedWTIndex; rw [hf.2.2.1]; exact hd hc⟩
    | ok u =>
      exact ⟨by show 0 ≤ s2.selectedWTIndex; rw [hf.2.2.1]; exact h0,
        by show 0 ≤ s2.selectedRepoIndex; exact hf.2.2.2.2 h1,
        fun hc => nomatch hc⟩

theorem yankStep_inv (env : Env) (m : UIModel)
    (h0 : 0 ≤ m.state.selectedWTIndex) (h1 : 0 ≤ m.state.selectedRepoIndex)
    (hd : m.dialogType = .confirmDelete → 1 ≤ m.state.selectedWTIndex) :
    dialogWTInv (yankStep env m).model := by
  unfold yankStep
  rcases hsel : getSelectedRepoS m.state with ⟨o, s2⟩
  have hf := getSelectedRepoS_snd_fields m.state
  rw [hsel] at hf
  try simp only [] at hf
  have hinv : dialogWTInv { m with state := s2 } :=
    ⟨by show 0 ≤ s2.selectedWTIndex; rw [hf.2.2.1]; exact h0,
     by show 0 ≤ s2.selectedRepoIndex; exact hf.2.2.2.2 h1,
     fun hc => by show 1 ≤ s2.selectedWTIndex; rw [hf.2.2.1]; exact hd hc⟩
  cases o with
  | none => exact hinv
  | some repo =>
    simp only []
    by_cases hlen : s2.worktrees.length = 0 ∨
        (s2.worktrees.length : Int) ≤ s2.selectedWTIndex
    · rw [if_pos hlen]
      exact hinv
    · rw [if_neg hlen]
      generalize env.clipboardRes = cres
      cases cres with
      | error e => exact hinv
      | ok u => exact hinv


theorem saveRepoTail_inv (env : Env) (m : UIModel)
    (h0 : 0 ≤ m.state.selectedWTIndex) (h1 : 0 ≤ m.state.selectedRepoIndex)
    (hd : m.dialogType = .confirmDelete → 1 ≤ m.state.selectedWTIndex)
    (typ : String) (resolved : Except Outcome (String × String) × List Effect) :
    dialogWTInv (StepResult.model
        (match resolved with
         | (.error o, effs) => ({ model := m, outcome := o, effects := effs } : StepResult)
         | (.ok (repoPath, repoURL), effs) =>
           match env.saveConfigRes with
           | .error e =>
             { model := { m with state := { m.state with config :=
                 { m.state.config with repositories := m.state.config.repositories ++
                   [({
                     name := trimSpaceS env.addRepoName
                     path := repoPath
                     typ := typ
                     url := repoURL
                     postCreateScript := "" } : Repository)] } } },
               outcome := .err ("Failed to save config: " ++ gerrText e),
               effects := effs ++ [.savedConfig] }
           | .ok _ =>
             match loadWorktreesS env { m.state with
                 config := { m.state.config with repositories := m.state.config.repositories ++
                   [({
                     name := trimSpaceS env.addRepoName
                     path := repoPath
                     typ := typ
                     url := repoURL
                     postCreateScript := "" } : Repository)] },
                 selectedRepoIndex := ((m.state.config.repositories ++
                   [({
                     name := trimSpaceS env.addRepoName
                     path := repoPath
                     typ := typ
                     url := repoURL
                     postCreateScript := "" } : Repository)]).length : Int) - 1 } with
             | (s4, effs2) =>
               { model := { m with state := s4, dialogType := .none },
                 outcome := .success ("Repository '" ++ trimSpaceS env.addRepoName ++
                   "' added successfully"),
                 effects := effs ++ [.savedConfig] ++ effs2 })) := by
  rcases resolved with ⟨eo, effs⟩
  cases eo with
  | error o => exact ⟨h0, h1, hd⟩
  | ok p =>
    rcases p with ⟨repoPath, repoURL⟩
    simp only []
    generalize hl2 : m.state.config.repositories ++
      [({
        name := trimSpaceS env.addRepoName
        path := repoPath
        typ := typ
        url := repoURL
        postCreateScript := "" } : Repository)] = newRepos
    have hlen2 : newRepos.length = m.state.config.repositories.length + 1 := by
      rw [← hl2, List.length_append]
      rfl
    generalize env.saveConfigRes = sres
    cases sres with
    | error e => exact ⟨h0, h1, hd⟩
    | ok u =>
      simp only []
      rcases hload : loadWorktreesS env { m.state with
          config := { m.state.config with repositories := newRepos },
          selectedRepoIndex := (newRepos.length : Int) - 1 } with ⟨s4, effs2⟩
      try simp only []
      have hfst : (loadWorktreesS env { m.state with
          config := { m.state.config with repositories := newRepos },
          selectedRepoIndex := (newRepos.length : Int) - 1 }).1 = s4 := by rw [hload]
      have hnn := loadWorktreesS_nonneg env { m.state with
          config := { m.state.config with repositories := newRepos },
          selectedRepoIndex := (newRepos.length : Int) - 1 } h0
        (by show 0 ≤ (newRepos.length : Int) - 1
            rw [hlen2]
            push_cast
            omega)
      rw [hfst] at hnn
      exact ⟨hnn.1, hnn.2, fun hc => nomatch hc⟩

set_option maxHeartbeats 1000000 in
theorem saveRepositoryStep_inv (env : Env) (m : UIModel)
    (h0 : 0 ≤ m.state.selectedWTIndex) (h1 : 0 ≤ m.state.selectedRepoIndex)
    (hd : m.dialogType = .confirmDelete → 1 ≤ m.state.selectedWTIndex) :
    dialogWTInv (saveRepositoryStep env m).model := by
  unfold saveRepositoryStep
  by_cases hc1 : trimSpaceS env.addRepoName = ""
  · rw [if_pos hc1]
    exact ⟨h0, h1, hd⟩
  · rw [if_neg hc1]
    by_cases hc2 : trimSpaceS env.addRepoPathOrURL = ""
    · rw [if_pos hc2]
      exact ⟨h0, h1, hd⟩
    · rw [if_neg hc2]
      by_cases hc3 : m.state.config.repositories.any
          (fun r => r.name == trimSpaceS env.addRepoName) = true
      · rw [if_pos hc3]
        exact ⟨h0, h1, hd⟩
      · rw [if_neg hc3]
        generalize inferRepoType (trimSpaceS env.addRepoPathOrURL) = rt
        exact saveRepoTail_inv env m h0 h1 hd rt _

theorem saveWorktreeStep_inv (env : Env) (m : UIModel)
    (h0 : 0 ≤ m.state.selectedWTIndex) (h1 : 0 ≤ m.state.selectedRepoIndex)
    (hd : m.dialogType = .confirmDelete → 1 ≤ m.state.selectedWTIndex) :
    dialogWTInv (saveWorktreeStep env m).model := by
  unfold saveWorktreeStep
  simp only []
  by_cases hc1 : trimSpaceS env.addWorktreeBranch = ""
  · rw [if_pos hc1]
    exact ⟨h0, h1, hd⟩
  · rw [if_neg hc1]
    by_cases hc2 : (trimSpaceS env.addWorktreeBranch).contains ' ' = true
    · rw [if_pos hc2]
      exact ⟨h0, h1, hd⟩
    · rw [if_neg hc2]
      rcases hsel : getSelectedRepoS m.state with ⟨o, s2⟩
      have hf := getSelectedRepoS_snd_fields m.state
      rw [hsel] at hf
      try simp only [] at hf
      have hinv2 : dialogWTInv { m with state := s2 } :=
        ⟨by show 0 ≤ s2.selectedWTIndex; rw [hf.2.2.1]; exact h0,
         by show 0 ≤ s2.selectedRepoIndex; exact hf.2.2.2.2 h1,
         fun hc => by show 1 ≤ s2.selectedWTIndex; rw [hf.2.2.1]; exact hd hc⟩
      cases o with
      | none => exact hinv2
      | some repo =>
        simp only []
        generalize (gitAddWorktree env repo.path s2.config.rootDirectory repo.name
          (trimSpaceS env.addWorktreeBranch) (repo.typ == "remote")).result = rres
        cases rres with
        | error e => exact hinv2
        | ok u =>
          simp only []
          generalize gitListWorktrees env repo.path = lres
          cases lres with
          | error e => exact hinv2
          | ok ws =>
            simp only []
            have hm3 : dialogWTInv { m with
                state := { s2 with worktrees := ws }, dialogType := .none } :=
              ⟨by show 0 ≤ s2.selectedWTIndex; rw [hf.2.2.1]; exact h0,
               by show 0 ≤ s2.selectedRepoIndex; exact hf.2.2.2.2 h1,
               fun hc => nomatch hc⟩
            by_cases hscript : repo.postCreateScript ≠ ""
            · rw [if_pos hscript]
              generalize ws.find?
                (fun wt => wt.branch == trimSpaceS env.addWorktreeBranch) = fres
              cases fres with
              | none =>
                simp only []
                by_cases hp2 : ("" : String) ≠ ""
                · rw [if_pos hp2]
                  generalize gitExecScript env repo.postCreateScript repo.path "" = eres
                  cases eres with
                  | error e => exact hm3
                  | ok u2 => exact hm3
                · rw [if_neg hp2]
                  exact hm3
              | some wt2 =>
                simp only []
                by_cases hp2 : wt2.path ≠ ""
                · rw [if_pos hp2]
                  generalize gitExecScript env repo.postCreateScript repo.path wt2.path = eres
                  cases eres with
                  | error e => exact hm3
                  | ok u2 => exact hm3
                · rw [if_neg hp2]
                  exact hm3
            · rw [if_neg hscript]
              exact hm3


theorem deleteWorktreeStep_inv (env : Env) (m : UIModel)
    (h0 : 0 ≤ m.state.selectedWTIndex) (h1 : 0 ≤ m.state.selectedRepoIndex)
    (hd : m.dialogType = .confirmDelete → 1 ≤ m.state.selectedWTIndex) :
    dialogWTInv (deleteWorktreeStep env m).model := by
  unfold deleteWorktreeStep
  rcases hsel : getSelectedRepoS m.state with ⟨o, s2⟩
  have hf := getSelectedRepoS_snd_fields m.state
  rw [hsel] at hf
  try simp only [] at hf
  have hw2 : 0 ≤ s2.selectedWTIndex := by rw [hf.2.2.1]; exact h0
  have hr2 : 0 ≤ s2.selectedRepoIndex := hf.2.2.2.2 h1
  have hinv2 : dialogWTInv { m with state := s2 } :=
    ⟨hw2, hr2, fun hc => by show 1 ≤ s2.selectedWTIndex; rw [hf.2.2.1]; exact hd hc⟩
  cases o with
  | none => exact hinv2
  | some repo =>
    simp only []
    by_cases hlen : s2.worktrees.length = 0 ∨
        (s2.worktrees.length : Int) ≤ s2.selectedWTIndex
    · rw [if_pos hlen]
      exact hinv2
    · rw [if_neg hlen]
      have hbnd : s2.selectedWTIndex < (s2.worktrees.length : Int) := by
        rcases not_or.mp hlen with ⟨_, hb⟩
        omega
      rcases listGetI_some hw2 hbnd with ⟨wt, hwt⟩
      rw [hwt]
      simp only [Option.getD_some]
      generalize gitRemoveWorktree env repo.path wt.path = rres
      cases rres with
      | error e => exact hinv2
      | ok u =>
        generalize gitDeleteBranch env repo.path wt.branch = bres
        cases bres with
        | error e => exact hinv2
        | ok u2 =>
          simp only []
          generalize gitListWorktrees env repo.path = lres
          cases lres with
          | error e =>
            exact ⟨hw2, hr2,
              fun hc => by show 1 ≤ s2.selectedWTIndex; rw [hf.2.2.1]; exact hd hc⟩
          | ok ws =>
            simp only []
            by_cases hcl : (ws.length : Int) ≤ s2.selectedWTIndex ∧ 0 < ws.length
            · rw [if_pos hcl]
              refine ⟨?_, hr2, fun hc => nomatch hc⟩
              show (0 : Int) ≤ (ws.length : Int) - 1
              have hp := hcl.2
              omega
            · rw [if_neg hcl]
              exact ⟨hw2, hr2, fun hc => nomatch hc⟩

theorem deleteRepoFinish_inv (env : Env) (m : UIModel) (rn : String)
    (W : List Worktree) (effs : List Effect)
    (h0 : 0 ≤ m.state.selectedWTIndex) (h1 : 0 ≤ m.state.selectedRepoIndex)
    (hd : m.dialogType = .confirmDelete → 1 ≤ m.state.selectedWTIndex) :
    dialogWTInv (StepResult.model (
      let cfg2 := W.foldl (fun cfg wt => deleteWorktreeNotes cfg wt.path) m.state.config
      let repos2 := cfg2.repositories.take m.state.selectedRepoIndex.toNat ++
        cfg2.repositories.drop (m.state.selectedRepoIndex.toNat + 1)
      let cfg3 := { cfg2 with repositories := repos2 }
      let s3 := { m.state with config := cfg3 }
      match env.saveConfigRes with
      | .error e =>
        { model := { m with state := s3 },
          outcome := .err ("Failed to save config: " ++ gerrText e),
          effects := effs ++ [.savedConfig] }
      | .ok _ =>
        let s4 :=
          if repos2.length = 0 then { s3 with selectedRepoIndex := 0 }
          else if (repos2.length : Int) ≤ s3.selectedRepoIndex then
            { s3 with selectedRepoIndex := (repos2.length : Int) - 1 }
          else s3
        let (s5, effs2) := loadWorktreesS env s4
        { model := { m with state := s5, dialogType := .none },
          outcome := .success ("Repository '" ++ rn ++ "' deleted successfully"),
          effects := effs ++ [.savedConfig] ++ effs2 })) := by
  simp only []
  generalize W.foldl (fun cfg wt => deleteWorktreeNotes cfg wt.path) m.state.config = cfg2
  generalize cfg2.repositories.take m.state.selectedRepoIndex.toNat ++
    cfg2.repositories.drop (m.state.selectedRepoIndex.toNat + 1) = repos2
  generalize env.saveConfigRes = sres
  cases sres with
  | error e => exact ⟨h0, h1, hd⟩
  | ok u =>
    simp only []
    by_cases hz : repos2.length = 0
    · rw [if_pos hz]
      rcases hload : loadWorktreesS env { m.state with
          config := { cfg2 with repositories := repos2 },
          selectedRepoIndex := 0 } with ⟨s5, effs2⟩
      try simp only []
      have hfst : (loadWorktreesS env { m.state with
          config := { cfg2 with repositories := repos2 },
          selectedRepoIndex := 0 }).1 = s5 := by rw [hload]
      have hnn := loadWorktreesS_nonneg env { m.state with
          config := { cfg2 with repositories := repos2 },
          selectedRepoIndex := 0 } h0 (le_refl (0 : Int))
      rw [hfst] at hnn
      exact ⟨hnn.1, hnn.2, fun hc => nomatch hc⟩
    · rw [if_neg hz]
      by_cases hle : (repos2.length : Int) ≤ m.state.selectedRepoIndex
      · rw [if_pos hle]
        rcases hload : loadWorktreesS env { m.state with
            config := { cfg2 with repositories := repos2 },
            selectedRepoIndex := (repos2.length : Int) - 1 } with ⟨s5, effs2⟩
        try simp only []
        have hfst : (loadWorktreesS env { m.state with
            config := { cfg2 with repositories := repos2 },
            selectedRepoIndex := (repos2.length : Int) - 1 }).1 = s5 := by rw [hload]
        have hnn := loadWorktreesS_nonneg env { m.state with
            config := { cfg2 with repositories := repos2 },
            selectedRepoIndex := (repos2.length : Int) - 1 } h0
          (by show 0 ≤ (repos2.length : Int) - 1; omega)
        rw [hfst] at hnn
        exact ⟨hnn.1, hnn.2, fun hc => nomatch hc⟩
      · rw [if_neg hle]
        rcases hload : loadWorktreesS env { m.state with
            config := { cfg2 with repositories := repos2 } } with ⟨s5, effs2⟩
        try simp only []
        have hfst : (loadWorktreesS env { m.state with
            config := { cfg2 with repositories := repos2 } }).1 = s5 := by rw [hload]
        have hnn := loadWorktreesS_nonneg env { m.state with
            config := { cfg2 with repositories := repos2 } } h0 h1
        rw [hfst] at hnn
        exact ⟨hnn.1, hnn.2, fun hc => nomatch hc⟩

set_option maxHeartbeats 1000000 in
theorem deleteRepositoryStep_inv (env : Env) (m : UIModel)
    (h0 : 0 ≤ m.state.selectedWTIndex) (h1 : 0 ≤ m.state.selectedRepoIndex)
    (hd : m.dialogType = .confirmDelete → 1 ≤ m.state.selectedWTIndex) :
    dialogWTInv (deleteRepositoryStep env m).model := by
  unfold deleteRepositoryStep
  rcases hsel : getSelectedRepoS m.state with ⟨o, s2⟩
  have hf := getSelectedRepoS_snd_fields m.state
  rw [hsel] at hf
  try simp only [] at hf
  have hw2 : 0 ≤ s2.selectedWTIndex := by rw [hf.2.2.1]; exact h0
  have hr2 : 0 ≤ s2.selectedRepoIndex := hf.2.2.2.2 h1
  have hinv2 : dialogWTInv { m with state := s2 } :=
    ⟨hw2, hr2, fun hc => by show 1 ≤ s2.selectedWTIndex; rw [hf.2.2.1]; exact hd hc⟩
  have hd2 : ({ m with state := s2 } : UIModel).dialogType = .confirmDelete →
      1 ≤ ({ m with state := s2 } : UIModel).state.selectedWTIndex :=
    fun hc => by show 1 ≤ s2.selectedWTIndex; rw [hf.2.2.1]; exact hd hc
  cases o with
  | none => exact hinv2
  | some repo =>
    simp only []
    generalize gitListWorktrees env repo.path = lres
    cases lres with
    | error e =>
      simp only []
      by_cases hnx : isNotExist e = false
      · rw [if_pos hnx]
        simp only []
        rw [if_pos (List.cons_ne_nil _ _)]
        exact ⟨hw2, hr2, fun hc => nomatch hc⟩
      · rw [if_neg hnx]
        simp only []
        rw [if_neg (by simp)]
        generalize gitDeleteRepository env repo.path = dres
        cases dres with
        | error e2 =>
          simp only []
          by_cases hnx2 : isNotExist e2 = false
          · rw [if_pos hnx2]
            exact ⟨hw2, hr2, fun hc => nomatch hc⟩
          · rw [if_neg hnx2]
            exact deleteRepoFinish_inv env { m with state := s2 } _ _ _ hw2 hr2 hd2
        | ok u =>
          exact deleteRepoFinish_inv env { m with state := s2 } _ _ _ hw2 hr2 hd2
    | ok ws =>
      simp only []
      generalize hpr : removeWorktreesLoop env repo.path 0 ws = pr
      rcases pr with ⟨errs, effs⟩
      simp only []
      by_cases herr : errs = []
      · subst herr
        rw [if_neg (by simp)]
        generalize gitDeleteRepository env repo.path = dres
        cases dres with
        | error e2 =>
          simp only []
          by_cases hnx2 : isNotExist e2 = false
          · rw [if_pos hnx2]
            exact ⟨hw2, hr2, fun hc => nomatch hc⟩
          · rw [if_neg hnx2]
            exact deleteRepoFinish_inv env { m with state := s2 } _ _ _ hw2 hr2 hd2
        | ok u =>
          exact deleteRepoFinish_inv env { m with state := s2 } _ _ _ hw2 hr2 hd2
      · rw [if_pos herr]
        exact ⟨hw2, hr2, fun hc => nomatch hc⟩


set_option maxHeartbeats 1000000 in
theorem updateStep_inv (env : Env) (key : Key) (m : UIModel) (h : dialogWTInv m) :
    dialogWTInv (updateStep env key m).model := by
  obtain ⟨h0, h1, hd⟩ := h
  unfold updateStep
  by_cases hnotes : m.editingNotes = true
  · rw [if_pos hnotes]
    cases key
    all_goals first
      | exact notesEditingSave_inv env m h0 h1 hd
      | exact ⟨h0, h1, hd⟩
  · rw [if_neg hnotes]
    by_cases hdlg : m.dialogType ≠ DialogType.none
    · rw [if_pos hdlg]
      cases key with
      | ctrlC => exact ⟨h0, h1, hd⟩
      | esc => exact ⟨h0, h1, fun hc => nomatch hc⟩
      | n =>
        cases hmd : m.dialogType with
        | confirmDelete => exact ⟨h0, h1, fun hc => nomatch hc⟩
        | confirmDeleteRepo => exact ⟨h0, h1, fun hc => nomatch hc⟩
        | none => exact ⟨h0, h1, hd⟩
        | addRepo => exact ⟨h0, h1, hd⟩
        | addWorktree => exact ⟨h0, h1, hd⟩
        | editScript => exact ⟨h0, h1, hd⟩
      | y =>
        cases hmd : m.dialogType with
        | confirmDelete => exact deleteWorktreeStep_inv env m h0 h1 hd
        | confirmDeleteRepo => exact deleteRepositoryStep_inv env m h0 h1 hd
        | none => exact ⟨h0, h1, hd⟩
        | addRepo => exact ⟨h0, h1, hd⟩
        | addWorktree => exact ⟨h0, h1, hd⟩
        | editScript => exact ⟨h0, h1, hd⟩
      | ctrlS =>
        cases hmd : m.dialogType with
        | addRepo => exact saveRepositoryStep_inv env m h0 h1 hd
        | addWorktree => exact saveWorktreeStep_inv env m h0 h1 hd
        | editScript => exact saveScriptStep_inv env m h0 h1 hd
        | none => exact ⟨h0, h1, hd⟩
        | confirmDelete => exact ⟨h0, h1, hd⟩
        | confirmDeleteRepo => exact ⟨h0, h1, hd⟩
      | _ => exact ⟨h0, h1, hd⟩
    · rw [if_neg hdlg]
      have hnone : m.dialogType = .none := not_not.mp hdlg
      cases key with
      | ctrlC => exact ⟨h0, h1, hd⟩
      | q => exact ⟨h0, h1, hd⟩
      | tab => exact ⟨h0, h1, hd⟩
      | h => exact ⟨h0, h1, hd⟩
      | l => exact ⟨h0, h1, hd⟩
      | esc => exact ⟨h0, h1, hd⟩
      | ctrlS => exact ⟨h0, h1, hd⟩
      | other => exact ⟨h0, h1, hd⟩
      | up =>
        simp only []
        by_cases hpane : m.state.activePane = .repos
        · rw [if_pos hpane]
          rcases hload : loadWorktreesS env (prevRepo m.state) with ⟨s2, effs⟩
          try simp only []
          have hpn := prevRepo_nonneg m.state h0 h1
          have hnn := loadWorktreesS_nonneg env (prevRepo m.state) hpn.1 hpn.2
          rw [show (loadWorktreesS env (prevRepo m.state)).1 = s2 from by rw [hload]] at hnn
          exact ⟨hnn.1, hnn.2, fun hc => nomatch hnone.symm.trans hc⟩
        · rw [if_neg hpane]
          have hpn := prevWorktree_nonneg m.state h0 h1
          exact ⟨hpn.1, hpn.2, fun hc => nomatch hnone.symm.trans hc⟩
      | k =>
        simp only []
        by_cases hpane : m.state.activePane = .repos
        · rw [if_pos hpane]
          rcases hload : loadWorktreesS env (prevRepo m.state) with ⟨s2, effs⟩
          try simp only []
          have hpn := prevRepo_nonneg m.state h0 h1
          have hnn := loadWorktreesS_nonneg env (prevRepo m.state) hpn.1 hpn.2
          rw [show (loadWorktreesS env (prevRepo m.state)).1 = s2 from by rw [hload]] at hnn
          exact ⟨hnn.1, hnn.2, fun hc => nomatch hnone.symm.trans hc⟩
        · rw [if_neg hpane]
          have hpn := prevWorktree_nonneg m.state h0 h1
          exact ⟨hpn.1, hpn.2, fun hc => nomatch hnone.symm.trans hc⟩
      | down =>
        simp only []
        by_cases hpane : m.state.activePane = .repos
        · rw [if_pos hpane]
          rcases hload : loadWorktreesS env (nextRepo m.state) with ⟨s2, effs⟩
          try simp only []
          have hpn := nextRepo_nonneg m.state h0 h1
          have hnn := loadWorktreesS_nonneg env (nextRepo m.state) hpn.1 hpn.2
          rw [show (loadWorktreesS env (nextRepo m.state)).1 = s2 from by rw [hload]] at hnn
          exact ⟨hnn.1, hnn.2, fun hc => nomatch hnone.symm.trans hc⟩
        · rw [if_neg hpane]
          have hpn := nextWorktree_nonneg m.state h0 h1
          exact ⟨hpn.1, hpn.2, fun hc => nomatch hnone.symm.trans hc⟩
      | j =>
        simp only []
        by_cases hpane : m.state.activePane = .repos
        · rw [if_pos hpane]
          rcases hload : loadWorktreesS env (nextRepo m.state) with ⟨s2, effs⟩
          try simp only []
          have hpn := nextRepo_nonneg m.state h0 h1
          have hnn := loadWorktreesS_nonneg env (nextRepo m.state) hpn.1 hpn.2
          rw [show (loadWorktreesS env (nextRepo m.state)).1 = s2 from by rw [hload]] at hnn
          exact ⟨hnn.1, hnn.2, fun hc => nomatch hnone.symm.trans hc⟩
        · rw [if_neg hpane]
          have hpn := nextWorktree_nonneg m.state h0 h1
          exact ⟨hpn.1, hpn.2, fun hc => nomatch hnone.symm.trans hc⟩
      | y =>
        simp only []
        by_cases hpane : m.state.activePane = .worktrees
        · rw [if_pos hpane]
          by_cases hw : 0 < m.state.worktrees.length
          · rw [if_pos hw]
            rcases hsel : getSelectedRepoS m.state with ⟨o, s2⟩
            have hf := getSelectedRepoS_snd_fields m.state
            rw [hsel] at hf
            try simp only [] at hf
            have hw2 : 0 ≤ s2.selectedWTIndex := by rw [hf.2.2.1]; exact h0
            have hr2 : 0 ≤ s2.selectedRepoIndex := hf.2.2.2.2 h1
            cases o with
            | none => exact ⟨hw2, hr2, fun hc => nomatch hnone.symm.trans hc⟩
            | some repo =>
              exact yankStep_inv env { m with state := s2 } hw2 hr2
                (fun hc => nomatch hnone.symm.trans hc)
          · rw [if_neg hw]
            exact ⟨h0, h1, hd⟩
        · rw [if_neg hpane]
          exact ⟨h0, h1, hd⟩
      | n =>
        simp only []
        by_cases hpane : m.state.activePane = .worktrees
        · rw [if_pos hpane]
          by_cases hw : 0 < m.state.worktrees.length
          · rw [if_pos hw]
            rcases hsel : getSelectedRepoS m.state with ⟨o, s2⟩
            have hf := getSelectedRepoS_snd_fields m.state
            rw [hsel] at hf
            try simp only [] at hf
            have hw2 : 0 ≤ s2.selectedWTIndex := by rw [hf.2.2.1]; exact h0
            have hr2 : 0 ≤ s2.selectedRepoIndex := hf.2.2.2.2 h1
            cases o with
            | none => exact ⟨hw2, hr2, fun hc => nomatch hnone.symm.trans hc⟩
            | some repo =>
              exact ⟨hw2, hr2, fun hc => nomatch hnone.symm.trans hc⟩
          · rw [if_neg hw]
            exact ⟨h0, h1, hd⟩
        · rw [if_neg hpane]
          exact ⟨h0, h1, hd⟩
      | s =>
        simp only []
        by_cases hpane : m.state.activePane = .repos
        · rw [if_pos hpane]
          rcases hsel : getSelectedRepoS m.state with ⟨o, s2⟩
          have hf := getSelectedRepoS_snd_fields m.state
          rw [hsel] at hf
          try simp only [] at hf
          have hw2 : 0 ≤ s2.selectedWTIndex := by rw [hf.2.2.1]; exact h0
          have hr2 : 0 ≤ s2.selectedRepoIndex := hf.2.2.2.2 h1
          cases o with
          | none => exact ⟨hw2, hr2, fun hc => nomatch hnone.symm.trans hc⟩
          | some repo => exact ⟨hw2, hr2, fun hc => nomatch hc⟩
        · rw [if_neg hpane]
          exact ⟨h0, h1, hd⟩
      | plus =>
        simp only []
        cases hpane : m.state.activePane with
        | repos => exact ⟨h0, h1, fun hc => nomatch hc⟩
        | worktrees =>
          rcases hsel : getSelectedRepoS m.state with ⟨o, s2⟩
          have hf := getSelectedRepoS_snd_fields m.state
          rw [hsel] at hf
          try simp only [] at hf
          have hw2 : 0 ≤ s2.selectedWTIndex := by rw [hf.2.2.1]; exact h0
          have hr2 : 0 ≤ s2.selectedRepoIndex := hf.2.2.2.2 h1
          cases o with
          | none => exact ⟨hw2, hr2, fun hc => nomatch hnone.symm.trans hc⟩
          | some repo => exact ⟨hw2, hr2, fun hc => nomatch hc⟩
      | minus =>
        simp only []
        cases hpane : m.state.activePane with
        | repos =>
          simp only []
          by_cases hk : 0 < m.state.config.repositories.length
          · rw [if_pos hk]
            rcases hsel : getSelectedRepoS m.state with ⟨o, s2⟩
            have hf := getSelectedRepoS_snd_fields m.state
            rw [hsel] at hf
            try simp only [] at hf
            have hw2 : 0 ≤ s2.selectedWTIndex := by rw [hf.2.2.1]; exact h0
            have hr2 : 0 ≤ s2.selectedRepoIndex := hf.2.2.2.2 h1
            cases o with
            | none => exact ⟨hw2, hr2, fun hc => nomatch hnone.symm.trans hc⟩
            | some repo => exact ⟨hw2, hr2, fun hc => nomatch hc⟩
          · rw [if_neg hk]
            exact ⟨h0, h1, hd⟩
        | worktrees =>
          simp only []
          by_cases hw : 0 < m.state.worktrees.length
          · rw [if_pos hw]
            rcases hsel : getSelectedRepoS m.state with ⟨o, s2⟩
            have hf := getSelectedRepoS_snd_fields m.state
            rw [hsel] at hf
            try simp only [] at hf
            have hw2 : 0 ≤ s2.selectedWTIndex := by rw [hf.2.2.1]; exact h0
            have hr2 : 0 ≤ s2.selectedRepoIndex := hf.2.2.2.2 h1
            cases o with
            | none => exact ⟨hw2, hr2, fun hc => nomatch hnone.symm.trans hc⟩
            | some repo =>
              simp only []
              by_cases hpos : 0 < s2.selectedWTIndex
              · rw [if_pos hpos]
                exact ⟨hw2, hr2, fun hc => by show 1 ≤ s2.selectedWTIndex; omega⟩
              · rw [if_neg hpos]
                exact ⟨hw2, hr2, fun hc => nomatch hnone.symm.trans hc⟩
          · rw [if_neg hw]
            exact ⟨h0, h1, hd⟩

theorem newModel_inv (env : Env) (cfg : Config) : dialogWTInv (newModel env cfg) := by
  unfold newModel
  simp only []
  rcases hload : loadWorktreesS env (AppState.mk cfg 0 0 .repos []) with ⟨s2, effs⟩
  try simp only []
  have hnn := loadWorktreesS_nonneg env (AppState.mk cfg 0 0 .repos [])
    (le_refl (0 : Int)) (le_refl (0 : Int))
  rw [show (loadWorktreesS env (AppState.mk cfg 0 0 .repos [])).1 = s2
    from by rw [hload]] at hnn
  exact ⟨hnn.1, hnn.2, fun hc => nomatch hc⟩

theorem reachable_dialogWTInv {m : UIModel} (hm : Reachable m) : dialogWTInv m := by
  induction hm with
  | init env cfg => exact newModel_inv env cfg
  | step h env key ih => exact updateStep_inv env key _ ih


theorem deleteWorktreeStep_remove_target (env : Env) (m : UIModel) (rp p : String)
    (h0 : 0 ≤ m.state.selectedWTIndex)
    (hmem : Effect.removedWorktree rp p ∈ (deleteWorktreeStep env m).effects) :
    ∃ wt, listGetI m.state.worktrees m.state.selectedWTIndex = some wt ∧ p = wt.path := by
  unfold deleteWorktreeStep at hmem
  rcases hsel : getSelectedRepoS m.state with ⟨o, s2⟩
  rw [hsel] at hmem
  have hf := getSelectedRepoS_snd_fields m.state
  rw [hsel] at hf
  try simp only [] at hf
  cases o with
  | none => simp at hmem
  | some repo =>
    simp only [] at hmem
    by_cases hlen : s2.worktrees.length = 0 ∨
        (s2.worktrees.length : Int) ≤ s2.selectedWTIndex
    · rw [if_pos hlen] at hmem
      simp at hmem
    · rw [if_neg hlen] at hmem
      have hw2 : 0 ≤ s2.selectedWTIndex := by rw [hf.2.2.1]; exact h0
      have hbnd : s2.selectedWTIndex < (s2.worktrees.length : Int) := by
        rcases not_or.mp hlen with ⟨_, hb⟩
        omega
      rcases listGetI_some hw2 hbnd with ⟨wt, hwt⟩
      rw [hwt] at hmem
      simp only [Option.getD_some] at hmem
      refine ⟨wt, ?_, ?_⟩
      · rw [← hf.2.1, ← hf.2.2.1]
        exact hwt
      · revert hmem
        generalize gitRemoveWorktree env repo.path wt.path = rres
        cases rres with
        | error e =>
          intro hmem
          simp at hmem
          exact hmem.2
        | ok u =>
          generalize gitDeleteBranch env repo.path wt.branch = bres
          cases bres with
          | error e =>
            intro hmem
            simp at hmem
            exact hmem.2
          | ok u2 =>
            simp only []
            generalize gitListWorktrees env repo.path = lres
            cases lres with
            | error e =>
              intro hmem
              simp at hmem
              exact hmem.2
            | ok ws =>
              simp only []
              intro hmem
              simp at hmem
              exact hmem.2

/-- C3: in every reachable model of the interaction state machine, an open
confirm-delete-worktree dialog implies the worktree cursor is at least 1,
and every worktree-removal effect a confirmation could trigger from that
state targets the worktree at that cursor — so the primary worktree at
index 0 is never the removal target, regardless of confirmation input. -/
theorem C3_confirm_delete_never_primary (m : UIModel) (hm : Reachable m)
    (hdlg : m.dialogType = .confirmDelete) :
    1 ≤ m.state.selectedWTIndex ∧
    ∀ env rp p, Effect.removedWorktree rp p ∈ (deleteWorktreeStep env m).effects →
      ∃ wt, listGetI m.state.worktrees m.state.selectedWTIndex = some wt ∧
        p = wt.path := by
  have hinv := reachable_dialogWTInv hm
  exact ⟨hinv.2.2 hdlg,
    fun env rp p hmem => deleteWorktreeStep_remove_target env m rp p hinv.1 hmem⟩

def cfgC3 : Config :=
  { rootDirectory := "/w", repositories := [repoDemo], yankTemplate := "",
    worktreeNotes := [] }

def envC3 : Env := { envOK with listWorktreesRes := fun _ => .ok [wtMain, wtFeat] }

/-- A concrete reachable model with the confirm-delete dialog open: switch
to the worktrees pane, move down to the second worktree, press minus. -/
def mC3 : UIModel :=
  (updateStep envC3 .minus
    (updateStep envC3 .j
      (updateStep envC3 .l (newModel envC3 cfgC3)).model).model).model

theorem mC3_reachable : Reachable mC3 :=
  Reachable.step
    (Reachable.step
      (Reachable.step (Reachable.init envC3 cfgC3) envC3 .l) envC3 .j)
    envC3 .minus

/-- Witness for `C3_confirm_delete_never_primary` at the concrete reachable
model `mC3`. -/
theorem C3_confirm_delete_never_primary_witness :
    mC3.dialogType = .confirmDelete ∧ 1 ≤ mC3.state.selectedWTIndex :=
  ⟨by decide, (C3_confirm_delete_never_primary mC3 mC3_reachable (by decide)).1⟩

end Workman
